import Mathlib

/-!
Verification of `ast/astutil` (node matcher and node reader).

A shallow embedding of `src/ast/astutil/astutil.go` and theorems about it.

* `NodeMatcher` with `IsMatchNodeType`, `IsMatchTokens`, `IsMatchSQLType`,
  `IsMatchKeyword`, `IsMatch`;
* `NodeReader` with `CopyReader`, `NodesWithRange`, `hasNext`, `NextNode`,
  `CurNodeIs`, `PeekNode`, `PeekNodeIs`, `FindNode`.

Methods with a pointer receiver are embedded in state-passing style: they take
the receiver's state and give back the receiver's state after the call next to
the value the Go method returns.  A Go call that can abort is embedded with the
result type `Outcome`, which separates a normal return from a runtime panic.
The loop of `FindNode` is embedded with a fuel argument (one unit per loop
iteration), since nothing in its body forces the scanning index forward.
-/

set_option autoImplicit false

namespace token

/-- Modelled from the spec: the lexical kind of a token (`token.Kind`).  Package
`token` is not part of the sources at hand; the spec describes the kind as an
enumerated category (whitespace, identifier, operator, literal, comma, keyword).
`Other` stands for every category the spec does not name. -/
inductive Kind where
  | Whitespace
  | Identifier
  | Operator
  | Literal
  | Comma
  | SQLKeyword
  | Other (code : Nat)
  deriving DecidableEq, Repr

end token

namespace dialect

/-- Modelled from the spec: the dialect keyword class (`dialect.KeywordKind`), an
enumerated category declared in package `dialect`, which is not part of the
sources at hand.  A class is represented by its ordinal. -/
abbrev KeywordKind := Nat

end dialect

namespace ast

/-- Modelled from the spec: `ast.SQLToken`, the payload of a leaf.  The spec gives
a leaf three facets: a lexical kind, an optional dialect keyword class, and the
literal text used for the case-insensitive keyword comparison. -/
structure SQLToken where
  Kind : token.Kind
  KeywordClass : Option dialect.KeywordKind
  Text : String
  deriving DecidableEq, Repr

/-- Modelled from the spec: `(*SQLToken).MatchKind`, the lexical kind of the token
is the expected one. -/
def SQLToken.MatchKind (t : SQLToken) (expect : token.Kind) : Bool :=
  t.Kind == expect

/-- Modelled from the spec: `(*SQLToken).MatchSQLKind`, the token has a keyword
class and it is the expected one. -/
def SQLToken.MatchSQLKind (t : SQLToken) (expect : dialect.KeywordKind) : Bool :=
  t.KeywordClass == some expect

/-- Modelled from the spec: `(*SQLToken).MatchSQLKeyword`, the literal text of the
token equals the expected string up to letter case. -/
def SQLToken.MatchSQLKeyword (t : SQLToken) (expect : String) : Bool :=
  t.Text.data.map Char.toLower == expect.data.map Char.toLower

/-- Values of the Go interface `ast.Node`.
* `Leaf tok` implements `ast.Token`; `GetToken()` gives `tok`.
* `Composite toks` implements `ast.TokenList`; `GetTokens()` gives `toks`.
* `Other str` implements only `ast.Node` (it has a string form and nothing else). -/
inductive Node where
  | Leaf (tok : SQLToken)
  | Composite (toks : List Node)
  | Other (str : String)

/-- Values of the Go interface `ast.TokenList`, as far as the reader uses them:
the children that `GetTokens()` returns. -/
structure TokenList where
  GetTokens : List Node

/-- The type assertion `node.(ast.TokenList)` on a possibly nil interface value:
the `ok` flag. -/
def isTokenList : Option Node → Bool
  | some (Node.Composite _) => true
  | _ => false

/-- The type assertion `node.(ast.Token)` on a possibly nil interface value,
followed by `GetToken()`: `none` when the assertion fails, in which case the Go
value is a nil interface. -/
def asToken : Option Node → Option SQLToken
  | some (Node.Leaf tok) => some tok
  | _ => none

end ast

namespace astutil

/-- What a Go call does: it returns a value, it aborts with a runtime panic, or
(for the fuel-indexed loop of `FindNode` only) it is still running when the fuel
is used up. -/
inductive Outcome (α : Type) where
  | returns (a : α)
  | panics
  | outOfFuel

/-- Sequencing of two Go calls: the second runs on the value the first returns;
a panic of the first is a panic of the whole. -/
def Outcome.bind {α β : Type} (x : Outcome α) (f : α → Outcome β) : Outcome β :=
  match x with
  | Outcome.returns a => f a
  | Outcome.panics => Outcome.panics
  | Outcome.outOfFuel => Outcome.outOfFuel

/-- The struct `NodeMatcher`.  A nil function and nil slices are `none`. -/
structure NodeMatcher where
  NodeTypeMatcherFunc : Option (ast.Node → Bool)
  ExpectTokens : Option (List token.Kind)
  ExpectSQLType : Option (List dialect.KeywordKind)
  ExpectKeyword : Option (List String)

/-- Go: `IsMatchNodeType`. -/
def NodeMatcher.IsMatchNodeType (nm : NodeMatcher) (node : ast.Node) : Bool :=
  match nm.NodeTypeMatcherFunc with
  | some f => if f node then true else false
  | none => false

/-- Go: `IsMatchTokens`. -/
def NodeMatcher.IsMatchTokens (nm : NodeMatcher) (tok : ast.SQLToken) : Bool :=
  match nm.ExpectTokens with
  | some expects => expects.any (fun expect => tok.MatchKind expect)
  | none => false

/-- Go: `IsMatchSQLType`. -/
def NodeMatcher.IsMatchSQLType (nm : NodeMatcher) (tok : ast.SQLToken) : Bool :=
  match nm.ExpectSQLType with
  | some expects => expects.any (fun expect => tok.MatchSQLKind expect)
  | none => false

/-- Go: `IsMatchKeyword`. -/
def NodeMatcher.IsMatchKeyword (nm : NodeMatcher) (tok : ast.SQLToken) : Bool :=
  match nm.ExpectKeyword with
  | some expects => expects.any (fun expect => tok.MatchSQLKeyword expect)
  | none => false

/-- Go: `IsMatch`.  The type predicate is tried first; a token list is then
rejected; a token is checked against the three sets; any other node panics. -/
def NodeMatcher.IsMatch (nm : NodeMatcher) (node : ast.Node) : Outcome Bool :=
  if nm.IsMatchNodeType node then Outcome.returns true
  else
    match node with
    | ast.Node.Composite _ => Outcome.returns false
    | ast.Node.Leaf sqlTok =>
      if nm.IsMatchTokens sqlTok || nm.IsMatchSQLType sqlTok || nm.IsMatchKeyword sqlTok then
        Outcome.returns true
      else Outcome.returns false
    | ast.Node.Other _ => Outcome.panics

/-- Go: `isWhitespace`. -/
def isWhitespace (node : ast.Node) : Bool :=
  match node with
  | ast.Node.Leaf tok => if tok.MatchKind token.Kind.Whitespace then true else false
  | _ => false

/-- The struct `NodeReader`.  `CurNode` is `none` for a nil interface value. -/
structure NodeReader where
  Node : ast.TokenList
  CurNode : Option ast.Node
  Index : Nat

/-- Go: `NewNodeReader`. -/
def NewNodeReader (list : ast.TokenList) : NodeReader :=
  { Node := list, CurNode := none, Index := 0 }

/-- Go: `CopyReader`.  The struct literal sets `Node` and `Index`; `CurNode` keeps
its zero value. -/
def NodeReader.CopyReader (nr : NodeReader) : NodeReader :=
  { Node := nr.Node, CurNode := none, Index := nr.Index }

/-- Go: `hasNext`. -/
def NodeReader.hasNext (nr : NodeReader) : Bool :=
  decide (nr.Index < nr.Node.GetTokens.length)

/-- Go: `NextNode`.  The result is the returned boolean and the receiver after
the call. -/
def NodeReader.NextNode (nr : NodeReader) (ignoreWhiteSpace : Bool) : Bool × NodeReader :=
  if h : nr.hasNext = true then
    have hlt : nr.Index < nr.Node.GetTokens.length := of_decide_eq_true h
    let nr1 : NodeReader := { nr with CurNode := some nr.Node.GetTokens[nr.Index], Index := nr.Index + 1 }
    if ignoreWhiteSpace && isWhitespace nr.Node.GetTokens[nr.Index] then nr1.NextNode ignoreWhiteSpace
    else (true, nr1)
  else (false, nr)
termination_by nr.Node.GetTokens.length - nr.Index
decreasing_by
  simp only [NodeReader.hasNext, decide_eq_true_eq] at h
  omega

/-- Go: `CurNodeIs`.  The receiver is only read. -/
def NodeReader.CurNodeIs (nr : NodeReader) (nm : NodeMatcher) : Outcome Bool :=
  match nr.CurNode with
  | some node =>
    (nm.IsMatch node).bind fun matched =>
      if matched then Outcome.returns true else Outcome.returns false
  | none => Outcome.returns false

/-- The loop of `PeekNode`, run on the scanning copy `tmpReader`. -/
def NodeReader.PeekNode.loop (ignoreWhiteSpace : Bool) (tmpReader : NodeReader) :
    Nat × Option ast.Node :=
  if h : tmpReader.hasNext = true then
    have hlt : tmpReader.Index < tmpReader.Node.GetTokens.length := of_decide_eq_true h
    let index := tmpReader.Index
    let node := tmpReader.Node.GetTokens[index]
    if ignoreWhiteSpace then
      if !isWhitespace node then (index, some node)
      else NodeReader.PeekNode.loop ignoreWhiteSpace (tmpReader.NextNode false).2
    else (index, some node)
  else (0, none)
termination_by tmpReader.Node.GetTokens.length - tmpReader.Index
decreasing_by
  rw [NodeReader.NextNode]
  simp only [h, dite_true, Bool.false_and, Bool.false_eq_true, if_false]
  simp only [NodeReader.hasNext, decide_eq_true_eq] at h
  omega

/-- Go: `PeekNode`.  The result is the returned pair (a nil node is `none`) and
the receiver after the call; the loop works on the copy made by `CopyReader`. -/
def NodeReader.PeekNode (nr : NodeReader) (ignoreWhiteSpace : Bool) :
    (Nat × Option ast.Node) × NodeReader :=
  let tmpReader := nr.CopyReader
  (NodeReader.PeekNode.loop ignoreWhiteSpace tmpReader, nr)

/-- Go: `PeekNodeIs`.  The result is the returned boolean and the receiver after
the call. -/
def NodeReader.PeekNodeIs (nr : NodeReader) (ignoreWhiteSpace : Bool) (nm : NodeMatcher) :
    Outcome (Bool × NodeReader) :=
  match nr.PeekNode ignoreWhiteSpace with
  | ((_, some node), nr1) =>
    (nm.IsMatch node).bind fun matched =>
      if matched then Outcome.returns (true, nr1) else Outcome.returns (false, nr1)
  | ((_, none), nr1) => Outcome.returns (false, nr1)

/-- The loop of `FindNode`: `nr` is the receiver, `tmpReader` the scanning copy.
One unit of fuel pays for one evaluation of the loop condition.  The Go body
reads `node` from the scanning position, asks the type predicate about `node`,
then asserts `tmpReader.CurNode.(ast.TokenList)` (on success: `continue`), then
asserts `nr.CurNode.(ast.Token)` and calls `GetToken()` on the outcome, which is a
nil interface when the assertion fails, and tests the three sets on that token. -/
def NodeReader.FindNode.loop (ignoreWhiteSpace : Bool) (nm : NodeMatcher) (nr : NodeReader) :
    Nat → NodeReader → Outcome (Option (NodeReader × ast.Node) × NodeReader)
  | 0, _ => Outcome.outOfFuel
  | fuel + 1, tmpReader =>
    if h : tmpReader.hasNext = true then
      have hlt : tmpReader.Index < tmpReader.Node.GetTokens.length := of_decide_eq_true h
      let node := tmpReader.Node.GetTokens[tmpReader.Index]
      if nm.IsMatchNodeType node then Outcome.returns (some (tmpReader, node), nr)
      else if ast.isTokenList tmpReader.CurNode then
        NodeReader.FindNode.loop ignoreWhiteSpace nm nr fuel tmpReader
      else
        match ast.asToken nr.CurNode with
        | none => Outcome.panics
        | some sqlTok =>
          if nm.IsMatchTokens sqlTok || nm.IsMatchSQLType sqlTok || nm.IsMatchKeyword sqlTok then
            Outcome.returns (some (tmpReader, node), nr)
          else
            NodeReader.FindNode.loop ignoreWhiteSpace nm nr fuel
              (tmpReader.NextNode ignoreWhiteSpace).2
    else Outcome.returns (none, nr)

/-- Go: `FindNode`, with `fuel` loop iterations allowed.  The result is the
returned pair (`none` for `nil, nil`) and the receiver after the call. -/
def NodeReader.FindNode (fuel : Nat) (nr : NodeReader) (ignoreWhiteSpace : Bool)
    (nm : NodeMatcher) : Outcome (Option (NodeReader × ast.Node) × NodeReader) :=
  let tmpReader := nr.CopyReader
  NodeReader.FindNode.loop ignoreWhiteSpace nm nr fuel tmpReader

/-- Go: `NodesWithRange`.  The slice expression `GetTokens()[startIndex:endIndex]`
is in range when `startIndex ≤ endIndex ≤ cap`, where `cap` is the capacity of the
slice that `GetTokens()` returns; the capacity of a Go slice may exceed its length.
The implementations of `ast.TokenList` are not part of the sources at hand, so the
part of the backing array between the length and the capacity is a parameter:
`spare` lists those slots (a nil interface value is `none`).  Out of range the Go
runtime panics.  The result is the returned slice and the receiver after the
call. -/
def NodeReader.NodesWithRange (nr : NodeReader) (spare : List (Option ast.Node))
    (startIndex endIndex : Nat) : Outcome (List (Option ast.Node) × NodeReader) :=
  let backing := nr.Node.GetTokens.map some ++ spare
  if startIndex ≤ endIndex ∧ endIndex ≤ backing.length then
    Outcome.returns ((backing.drop startIndex).take (endIndex - startIndex), nr)
  else Outcome.panics

/-- Specification side: the children a step may stop at.  With the flag off every
child qualifies; with the flag on every child that `isWhitespace` rejects. -/
def qualifies (ignoreWhiteSpace : Bool) (node : ast.Node) : Bool :=
  !(ignoreWhiteSpace && isWhitespace node)

/-- Specification side: `node` is the child at index `i`, it qualifies, and no
child at an index from `nr.Index` up to `i` (excluded) qualifies. -/
def IsFirstQualifying (nr : NodeReader) (ignoreWhiteSpace : Bool) (i : Nat) (node : ast.Node) :
    Prop :=
  nr.Index ≤ i ∧ nr.Node.GetTokens[i]? = some node ∧ qualifies ignoreWhiteSpace node = true ∧
    ∀ k c, nr.Index ≤ k → k < i → nr.Node.GetTokens[k]? = some c →
      qualifies ignoreWhiteSpace c = false

/-- Specification side: some child at an index from `nr.Index` on qualifies. -/
def SomeQualifies (nr : NodeReader) (ignoreWhiteSpace : Bool) : Prop :=
  ∃ j c, nr.Index ≤ j ∧ nr.Node.GetTokens[j]? = some c ∧ qualifies ignoreWhiteSpace c = true

/-! ### Inputs of the worked examples -/

/-- An identifier leaf with the given text. -/
def identLeaf (text : String) : ast.Node :=
  ast.Node.Leaf { Kind := token.Kind.Identifier, KeywordClass := none, Text := text }

/-- A comma leaf. -/
def commaLeaf : ast.Node :=
  ast.Node.Leaf { Kind := token.Kind.Comma, KeywordClass := none, Text := "," }

/-- The matcher whose only criterion is the lexical kind Comma. -/
def commaMatcher : NodeMatcher :=
  { NodeTypeMatcherFunc := none, ExpectTokens := some [token.Kind.Comma],
    ExpectSQLType := none, ExpectKeyword := none }

/-- The matcher whose only criterion is a type predicate: it accepts the leaves
with the given text. -/
def textPredicateMatcher (text : String) : NodeMatcher :=
  { NodeTypeMatcherFunc := some fun node =>
      match node with
      | ast.Node.Leaf tok => tok.Text == text
      | _ => false,
    ExpectTokens := none, ExpectSQLType := none, ExpectKeyword := none }

/-- A keyword leaf with the given keyword class and text. -/
def keywordLeaf (cls : Option dialect.KeywordKind) (text : String) : ast.Node :=
  ast.Node.Leaf { Kind := token.Kind.SQLKeyword, KeywordClass := cls, Text := text }

/-- A whitespace leaf. -/
def whitespaceLeaf : ast.Node :=
  ast.Node.Leaf { Kind := token.Kind.Whitespace, KeywordClass := none, Text := " " }

/-- The matcher whose only criterion is the keyword text `SELECT`. -/
def selectMatcher : NodeMatcher :=
  { NodeTypeMatcherFunc := none, ExpectTokens := none, ExpectSQLType := none,
    ExpectKeyword := some ["SELECT"] }

/-- The child list `[Keyword(SELECT), WS, Identifier(x), Comma, WS, Identifier(y)]`. -/
def selectList (cls : Option dialect.KeywordKind) : ast.TokenList :=
  { GetTokens := [keywordLeaf cls "SELECT", whitespaceLeaf, identLeaf "x", commaLeaf,
      whitespaceLeaf, identLeaf "y"] }

/-- Specification side: `n` consecutive calls of `NextNode(flag)`.  The boolean
tells whether all of them returned true; the reader is the receiver after the
last call. -/
def NextNodeTimes (ignoreWhiteSpace : Bool) : Nat → NodeReader → Bool × NodeReader
  | 0, nr => (true, nr)
  | n + 1, nr =>
    let before := NextNodeTimes ignoreWhiteSpace n nr
    let step := before.2.NextNode ignoreWhiteSpace
    (before.1 && step.1, step.2)

/-- Specification side: one peeking call, `PeekNode(flag)` or `PeekNodeIs(flag, nm)`. -/
inductive PeekCall where
  | peekNode (ignoreWhiteSpace : Bool)
  | peekNodeIs (ignoreWhiteSpace : Bool) (nm : NodeMatcher)

/-- Specification side: the receiver after a sequence of peeking calls, made one
after the other on the same reader. -/
def afterPeeks : List PeekCall → NodeReader → Outcome NodeReader
  | [], nr => Outcome.returns nr
  | PeekCall.peekNode flag :: rest, nr => afterPeeks rest (nr.PeekNode flag).2
  | PeekCall.peekNodeIs flag nm :: rest, nr =>
    (nr.PeekNodeIs flag nm).bind fun result => afterPeeks rest result.2

end astutil

namespace astutil

open ast

/-! ## The matcher -/

/-- The type predicate of a matcher is present and accepts the node. -/
theorem NodeMatcher.IsMatchNodeType_iff (nm : NodeMatcher) (node : Node) :
    nm.IsMatchNodeType node = true ↔ ∃ f, nm.NodeTypeMatcherFunc = some f ∧ f node = true := by
  unfold NodeMatcher.IsMatchNodeType
  cases hf : nm.NodeTypeMatcherFunc with
  | none => simp
  | some f => by_cases hfn : f node = true <;> simp [hfn]

/-- Some kind of `ExpectTokens` matches the token. -/
theorem NodeMatcher.IsMatchTokens_iff (nm : NodeMatcher) (tok : SQLToken) :
    nm.IsMatchTokens tok = true ↔
      ∃ ks, nm.ExpectTokens = some ks ∧ ∃ k ∈ ks, tok.MatchKind k = true := by
  unfold NodeMatcher.IsMatchTokens
  cases nm.ExpectTokens with
  | none => simp
  | some ks => simp [List.any_eq_true]

/-- Some keyword class of `ExpectSQLType` matches the token. -/
theorem NodeMatcher.IsMatchSQLType_iff (nm : NodeMatcher) (tok : SQLToken) :
    nm.IsMatchSQLType tok = true ↔
      ∃ ks, nm.ExpectSQLType = some ks ∧ ∃ k ∈ ks, tok.MatchSQLKind k = true := by
  unfold NodeMatcher.IsMatchSQLType
  cases nm.ExpectSQLType with
  | none => simp
  | some ks => simp [List.any_eq_true]

/-- Some string of `ExpectKeyword` matches the token. -/
theorem NodeMatcher.IsMatchKeyword_iff (nm : NodeMatcher) (tok : SQLToken) :
    nm.IsMatchKeyword tok = true ↔
      ∃ ks, nm.ExpectKeyword = some ks ∧ ∃ k ∈ ks, tok.MatchSQLKeyword k = true := by
  unfold NodeMatcher.IsMatchKeyword
  cases nm.ExpectKeyword with
  | none => simp
  | some ks => simp [List.any_eq_true]

/-- C1: on a node that is a Leaf or a Composite, `IsMatch` returns a boolean, and
it returns true exactly when the type predicate is present and accepts the node,
or the node is a Leaf whose token matches some kind in `ExpectTokens`, some
keyword class in `ExpectSQLType` or some string in `ExpectKeyword`; a matcher
without a type predicate returns false on every Composite, whatever its
children are. -/
theorem C1_IsMatch_characterisation (nm : NodeMatcher) (n : Node)
    (hn : ∀ str, n ≠ Node.Other str) :
    (nm.IsMatch n = Outcome.returns true ∨ nm.IsMatch n = Outcome.returns false) ∧
    (nm.IsMatch n = Outcome.returns true ↔
      ((∃ f, nm.NodeTypeMatcherFunc = some f ∧ f n = true) ∨
        ∃ tok, n = Node.Leaf tok ∧
          ((∃ ks, nm.ExpectTokens = some ks ∧ ∃ k ∈ ks, tok.MatchKind k = true) ∨
           (∃ ks, nm.ExpectSQLType = some ks ∧ ∃ k ∈ ks, tok.MatchSQLKind k = true) ∨
           (∃ ks, nm.ExpectKeyword = some ks ∧ ∃ k ∈ ks, tok.MatchSQLKeyword k = true)))) ∧
    (nm.NodeTypeMatcherFunc = none →
      ∀ toks, n = Node.Composite toks → nm.IsMatch n = Outcome.returns false) := by
  rw [← NodeMatcher.IsMatchNodeType_iff]
  refine ⟨?_, ?_, ?_⟩
  · unfold NodeMatcher.IsMatch
    cases n with
    | Other str => exact absurd rfl (hn str)
    | Composite toks => by_cases h : nm.IsMatchNodeType (Node.Composite toks) = true <;> simp [h]
    | Leaf tok =>
      by_cases h : nm.IsMatchNodeType (Node.Leaf tok) = true
      · simp [h]
      · by_cases h2 : (nm.IsMatchTokens tok || nm.IsMatchSQLType tok ||
          nm.IsMatchKeyword tok) = true <;> simp [h, h2]
  · unfold NodeMatcher.IsMatch
    cases n with
    | Other str => exact absurd rfl (hn str)
    | Composite toks => by_cases h : nm.IsMatchNodeType (Node.Composite toks) = true <;> simp [h]
    | Leaf tok =>
      simp only [← NodeMatcher.IsMatchTokens_iff, ← NodeMatcher.IsMatchSQLType_iff,
        ← NodeMatcher.IsMatchKeyword_iff]
      cases h1 : nm.IsMatchNodeType (Node.Leaf tok) <;>
        cases h2 : nm.IsMatchTokens tok <;>
        cases h3 : nm.IsMatchSQLType tok <;>
        cases h4 : nm.IsMatchKeyword tok <;>
        simp [h2, h3, h4]
  · intro hnone toks hc
    subst hc
    simp [NodeMatcher.IsMatch, NodeMatcher.IsMatchNodeType, hnone]

/-- C1, at a concrete input: the matcher expecting the kind Comma, asked about a
Comma leaf. -/
theorem C1_IsMatch_characterisation_witness :
    (∀ str, Node.Leaf ⟨token.Kind.Comma, none, ","⟩ ≠ Node.Other str) ∧
    (NodeMatcher.IsMatch ⟨none, some [token.Kind.Comma], none, none⟩
        (Node.Leaf ⟨token.Kind.Comma, none, ","⟩) = Outcome.returns true ↔
      ((∃ f, (⟨none, some [token.Kind.Comma], none, none⟩ : NodeMatcher).NodeTypeMatcherFunc
            = some f ∧ f (Node.Leaf ⟨token.Kind.Comma, none, ","⟩) = true) ∨
        ∃ tok, Node.Leaf ⟨token.Kind.Comma, none, ","⟩ = Node.Leaf tok ∧
          ((∃ ks, (⟨none, some [token.Kind.Comma], none, none⟩ : NodeMatcher).ExpectTokens
              = some ks ∧ ∃ k ∈ ks, tok.MatchKind k = true) ∨
           (∃ ks, (⟨none, some [token.Kind.Comma], none, none⟩ : NodeMatcher).ExpectSQLType
              = some ks ∧ ∃ k ∈ ks, tok.MatchSQLKind k = true) ∨
           (∃ ks, (⟨none, some [token.Kind.Comma], none, none⟩ : NodeMatcher).ExpectKeyword
              = some ks ∧ ∃ k ∈ ks, tok.MatchSQLKeyword k = true)))) :=
  ⟨fun _ h => Node.noConfusion h,
   (C1_IsMatch_characterisation ⟨none, some [token.Kind.Comma], none, none⟩
      (Node.Leaf ⟨token.Kind.Comma, none, ","⟩) (fun _ h => Node.noConfusion h)).2.1⟩

/-! ## Stepping -/

/-- One unfolding of `NextNode`. -/
theorem NodeReader.NextNode_unfold (nr : NodeReader) (flag : Bool) :
    nr.NextNode flag =
      if h : nr.Index < nr.Node.GetTokens.length then
        if (flag && isWhitespace nr.Node.GetTokens[nr.Index]) = true then
          NodeReader.NextNode
            { nr with CurNode := some nr.Node.GetTokens[nr.Index], Index := nr.Index + 1 } flag
        else (true, { nr with CurNode := some nr.Node.GetTokens[nr.Index], Index := nr.Index + 1 })
      else (false, nr) := by
  rw [NodeReader.NextNode]
  by_cases h : nr.Index < nr.Node.GetTokens.length <;> simp [NodeReader.hasNext, h]

/-- The two ways `NextNode` can end.  Either it stops at the first qualifying
child, or no child qualifies and it returns false; in the second case the reader
is untouched when it had no next child, and otherwise it has run to the end of
the list with the last child as `CurNode`. -/
theorem NodeReader.NextNode_cases (nr : NodeReader) (flag : Bool) :
    (∃ i c, IsFirstQualifying nr flag i c ∧
        nr.NextNode flag = (true, { Node := nr.Node, CurNode := some c, Index := i + 1 })) ∨
    (¬ SomeQualifies nr flag ∧
        nr.NextNode flag = (false,
          if nr.Index < nr.Node.GetTokens.length then
            { Node := nr.Node, CurNode := nr.Node.GetTokens[nr.Node.GetTokens.length - 1]?,
              Index := nr.Node.GetTokens.length }
          else nr)) := by
  obtain ⟨tl, cur, idx⟩ := nr
  generalize hn : tl.GetTokens.length - idx = n
  induction n generalizing idx cur with
  | zero =>
    right
    have hge : ¬ idx < tl.GetTokens.length := by omega
    refine ⟨?_, ?_⟩
    · rintro ⟨j, c, hj, hc, -⟩
      simp only at hj hc
      have := (List.getElem?_eq_some_iff.mp hc).1
      omega
    · rw [NodeReader.NextNode_unfold]
      simp [hge]
  | succ n ih =>
    have hlt : idx < tl.GetTokens.length := by omega
    rw [NodeReader.NextNode_unfold]
    simp only [hlt, dite_true]
    by_cases hw : (flag && isWhitespace tl.GetTokens[idx]) = true
    · simp only [hw, if_true]
      have hq : qualifies flag tl.GetTokens[idx] = false := by simp [qualifies, hw]
      rcases ih (some tl.GetTokens[idx]) (idx + 1) (by omega) with ⟨i, c, hfirst, hres⟩ | ⟨hnone, hres⟩
      · left
        refine ⟨i, c, ?_, hres⟩
        obtain ⟨h1, h2, h3, h4⟩ := hfirst
        simp only at h1 h2 h4
        refine ⟨by simp only; omega, h2, h3, ?_⟩
        intro k c2 hk hki hc2
        simp only at hk hc2
        by_cases hkidx : k = idx
        · subst hkidx
          rw [List.getElem?_eq_getElem hlt] at hc2
          cases hc2
          exact hq
        · exact h4 k c2 (by omega) hki hc2
      · right
        refine ⟨?_, ?_⟩
        · rintro ⟨j, c, hj, hc, hqc⟩
          simp only at hj hc
          by_cases hjidx : j = idx
          · subst hjidx
            rw [List.getElem?_eq_getElem hlt] at hc
            cases hc
            rw [hq] at hqc
            cases hqc
          · exact hnone ⟨j, c, by simp only; omega, hc, hqc⟩
        · rw [hres]
          by_cases hlast : idx + 1 < tl.GetTokens.length
          · simp [hlast]
          · have hlen : tl.GetTokens.length = idx + 1 := by omega
            simp [hlen]
    · simp only [hw, if_false]
      left
      refine ⟨idx, tl.GetTokens[idx], ⟨le_refl _, ?_, ?_, ?_⟩, rfl⟩
      · simp [hlt]
      · cases flag <;> simp_all [qualifies]
      · intro k c2 hk hki
        simp only at hk
        omega

/-- The first qualifying child, when there is one, is unique. -/
theorem IsFirstQualifying.unique {nr : NodeReader} {flag : Bool} {i j : Nat} {c d : Node}
    (h1 : IsFirstQualifying nr flag i c) (h2 : IsFirstQualifying nr flag j d) :
    i = j ∧ c = d := by
  obtain ⟨a1, a2, a3, a4⟩ := h1
  obtain ⟨b1, b2, b3, b4⟩ := h2
  have hij : i = j := by
    rcases Nat.lt_trichotomy i j with h | h | h
    · have := b4 i c a1 h a2
      rw [a3] at this
      cases this
    · exact h
    · have := a4 j d b1 h b2
      rw [b3] at this
      cases this
  subst hij
  rw [a2] at b2
  exact ⟨rfl, Option.some.inj b2⟩

/-- A first qualifying child is a qualifying child. -/
theorem IsFirstQualifying.someQualifies {nr : NodeReader} {flag : Bool} {i : Nat} {c : Node}
    (h : IsFirstQualifying nr flag i c) : SomeQualifies nr flag :=
  ⟨i, c, h.1, h.2.1, h.2.2.1⟩

/-- With the flag off every child qualifies; with the flag on exactly the children
that are not a whitespace-kind Leaf. -/
theorem qualifies_iff (flag : Bool) (c : Node) :
    qualifies flag c = true ↔
      (flag = false ∨ ¬ ∃ tok, c = Node.Leaf tok ∧ tok.Kind = token.Kind.Whitespace) := by
  cases flag
  · simp [qualifies]
  · cases c with
    | Leaf tok =>
      by_cases hk : tok.Kind = token.Kind.Whitespace <;>
        simp [qualifies, isWhitespace, SQLToken.MatchKind, hk]
    | Composite toks => simp [qualifies, isWhitespace]
    | Other str => simp [qualifies, isWhitespace]

/-- C5: `NextNode(flag)` returns true if and only if some child at an index from
`Index` on qualifies (every child with the flag off, every child that is not a
whitespace-kind Leaf with the flag on); when it returns true, `CurNode` is the
first qualifying child, at index `j`, `Index` becomes `j + 1` and the child list
is unchanged; so on `[A, WS, WS, B]` two `NextNode(true)` calls yield `A` and then
`B` as `CurNode`. -/
theorem C5_NextNode_first_qualifying (nr : NodeReader) (flag : Bool) :
    (∀ c, qualifies flag c = true ↔
      (flag = false ∨ ¬ ∃ tok, c = Node.Leaf tok ∧ tok.Kind = token.Kind.Whitespace)) ∧
    ((nr.NextNode flag).1 = true ↔
      ∃ j c, nr.Index ≤ j ∧ nr.Node.GetTokens[j]? = some c ∧ qualifies flag c = true) ∧
    ((nr.NextNode flag).1 = true →
      ∃ j c, (nr.Index ≤ j ∧ nr.Node.GetTokens[j]? = some c ∧ qualifies flag c = true ∧
          ∀ k d, nr.Index ≤ k → k < j → nr.Node.GetTokens[k]? = some d →
            qualifies flag d = false) ∧
        (nr.NextNode flag).2 = { Node := nr.Node, CurNode := some c, Index := j + 1 }) ∧
    (∀ (A B : Node) (w1 w2 : SQLToken),
      qualifies true A = true → qualifies true B = true →
      w1.Kind = token.Kind.Whitespace → w2.Kind = token.Kind.Whitespace →
      (NewNodeReader ⟨[A, Node.Leaf w1, Node.Leaf w2, B]⟩).NextNode true =
          (true, { Node := ⟨[A, Node.Leaf w1, Node.Leaf w2, B]⟩, CurNode := some A, Index := 1 }) ∧
      ((NewNodeReader ⟨[A, Node.Leaf w1, Node.Leaf w2, B]⟩).NextNode true).2.NextNode true =
          (true, { Node := ⟨[A, Node.Leaf w1, Node.Leaf w2, B]⟩, CurNode := some B, Index := 4 })) := by
  refine ⟨qualifies_iff flag, ?_, ?_, ?_⟩
  · rcases NodeReader.NextNode_cases nr flag with ⟨i, c, hfirst, hres⟩ | ⟨hnone, hres⟩
    · rw [hres]
      exact ⟨fun _ => hfirst.someQualifies, fun _ => rfl⟩
    · rw [hres]
      exact ⟨fun h => Bool.noConfusion h, fun h => absurd h hnone⟩
  · intro htrue
    rcases NodeReader.NextNode_cases nr flag with ⟨i, c, hfirst, hres⟩ | ⟨hnone, hres⟩
    · exact ⟨i, c, hfirst, by rw [hres]⟩
    · rw [hres] at htrue
      cases htrue
  · intro A B w1 w2 hA hB hw1 hw2
    have hA2 : isWhitespace A = false := by simpa [qualifies] using hA
    have hB2 : isWhitespace B = false := by simpa [qualifies] using hB
    have h1 : isWhitespace (Node.Leaf w1) = true := by simp [isWhitespace, SQLToken.MatchKind, hw1]
    have h2 : isWhitespace (Node.Leaf w2) = true := by simp [isWhitespace, SQLToken.MatchKind, hw2]
    have first : (NewNodeReader ⟨[A, Node.Leaf w1, Node.Leaf w2, B]⟩).NextNode true =
        (true, { Node := ⟨[A, Node.Leaf w1, Node.Leaf w2, B]⟩, CurNode := some A, Index := 1 }) := by
      rw [NodeReader.NextNode_unfold]
      simp [NewNodeReader, hA2]
    refine ⟨first, ?_⟩
    rw [first]
    rw [NodeReader.NextNode_unfold]
    simp only [List.length_cons, List.length_nil, Nat.reduceAdd, Nat.one_lt_ofNat, dite_true,
      List.getElem_cons_succ, List.getElem_cons_zero, h1, Bool.and_self, if_true]
    rw [NodeReader.NextNode_unfold]
    simp only [List.length_cons, List.length_nil, Nat.reduceAdd, Nat.reduceLT, dite_true,
      List.getElem_cons_succ, List.getElem_cons_zero, h2, Bool.and_self, if_true]
    rw [NodeReader.NextNode_unfold]
    simp [hB2]

/-- C5, at a concrete input: the list `[x, WS, WS, y]` read from index 1 with the
flag on; the step returns true and stops at `y`. -/
theorem C5_NextNode_first_qualifying_witness :
    (NodeReader.NextNode
        ⟨⟨[Node.Leaf ⟨token.Kind.Identifier, none, "x"⟩, Node.Leaf ⟨token.Kind.Whitespace, none, " "⟩,
            Node.Leaf ⟨token.Kind.Whitespace, none, " "⟩,
            Node.Leaf ⟨token.Kind.Identifier, none, "y"⟩]⟩,
          some (Node.Leaf ⟨token.Kind.Identifier, none, "x"⟩), 1⟩ true).1 = true ∧
    ∃ j c, (1 ≤ j ∧
        [Node.Leaf ⟨token.Kind.Identifier, none, "x"⟩, Node.Leaf ⟨token.Kind.Whitespace, none, " "⟩,
          Node.Leaf ⟨token.Kind.Whitespace, none, " "⟩,
          Node.Leaf ⟨token.Kind.Identifier, none, "y"⟩][j]? = some c ∧
        qualifies true c = true ∧
        ∀ k d, 1 ≤ k → k < j →
          [Node.Leaf ⟨token.Kind.Identifier, none, "x"⟩,
            Node.Leaf ⟨token.Kind.Whitespace, none, " "⟩,
            Node.Leaf ⟨token.Kind.Whitespace, none, " "⟩,
            Node.Leaf ⟨token.Kind.Identifier, none, "y"⟩][k]? = some d →
          qualifies true d = false) ∧
      (NodeReader.NextNode
        ⟨⟨[Node.Leaf ⟨token.Kind.Identifier, none, "x"⟩, Node.Leaf ⟨token.Kind.Whitespace, none, " "⟩,
            Node.Leaf ⟨token.Kind.Whitespace, none, " "⟩,
            Node.Leaf ⟨token.Kind.Identifier, none, "y"⟩]⟩,
          some (Node.Leaf ⟨token.Kind.Identifier, none, "x"⟩), 1⟩ true).2 =
        { Node := ⟨[Node.Leaf ⟨token.Kind.Identifier, none, "x"⟩,
            Node.Leaf ⟨token.Kind.Whitespace, none, " "⟩,
            Node.Leaf ⟨token.Kind.Whitespace, none, " "⟩,
            Node.Leaf ⟨token.Kind.Identifier, none, "y"⟩]⟩, CurNode := some c, Index := j + 1 } :=
  have hstep : (NodeReader.NextNode
        ⟨⟨[Node.Leaf ⟨token.Kind.Identifier, none, "x"⟩, Node.Leaf ⟨token.Kind.Whitespace, none, " "⟩,
            Node.Leaf ⟨token.Kind.Whitespace, none, " "⟩,
            Node.Leaf ⟨token.Kind.Identifier, none, "y"⟩]⟩,
          some (Node.Leaf ⟨token.Kind.Identifier, none, "x"⟩), 1⟩ true).1 = true := by
    simp [NodeReader.NextNode, NodeReader.hasNext, isWhitespace, SQLToken.MatchKind]
  ⟨hstep, (C5_NextNode_first_qualifying _ true).2.2.1 hstep⟩

/-! ## Peeking -/

/-- One unfolding of the loop of `PeekNode`. -/
theorem NodeReader.PeekNode.loop_unfold (flag : Bool) (tmp : NodeReader) :
    NodeReader.PeekNode.loop flag tmp =
      if h : tmp.Index < tmp.Node.GetTokens.length then
        if flag = true then
          if isWhitespace tmp.Node.GetTokens[tmp.Index] = false then
            (tmp.Index, some tmp.Node.GetTokens[tmp.Index])
          else
            NodeReader.PeekNode.loop flag
              { tmp with CurNode := some tmp.Node.GetTokens[tmp.Index], Index := tmp.Index + 1 }
        else (tmp.Index, some tmp.Node.GetTokens[tmp.Index])
      else (0, none) := by
  rw [NodeReader.PeekNode.loop]
  by_cases h : tmp.Index < tmp.Node.GetTokens.length
  · rw [NodeReader.NextNode_unfold]
    simp [NodeReader.hasNext, h]
  · simp [NodeReader.hasNext, h]

/-- The two ways the loop of `PeekNode` can end: at the first qualifying child,
or with the none value when no child qualifies. -/
theorem NodeReader.PeekNode.loop_cases (flag : Bool) (tmp : NodeReader) :
    (∃ i c, IsFirstQualifying tmp flag i c ∧ NodeReader.PeekNode.loop flag tmp = (i, some c)) ∨
    (¬ SomeQualifies tmp flag ∧ NodeReader.PeekNode.loop flag tmp = (0, none)) := by
  obtain ⟨tl, cur, idx⟩ := tmp
  generalize hn : tl.GetTokens.length - idx = n
  induction n generalizing idx cur with
  | zero =>
    right
    have hge : ¬ idx < tl.GetTokens.length := by omega
    refine ⟨?_, ?_⟩
    · rintro ⟨j, c, hj, hc, -⟩
      simp only at hj hc
      have := (List.getElem?_eq_some_iff.mp hc).1
      omega
    · rw [NodeReader.PeekNode.loop_unfold]
      simp [hge]
  | succ n ih =>
    have hlt : idx < tl.GetTokens.length := by omega
    rw [NodeReader.PeekNode.loop_unfold]
    simp only [hlt, dite_true]
    by_cases hq : qualifies flag tl.GetTokens[idx] = true
    · left
      refine ⟨idx, tl.GetTokens[idx], ⟨le_refl _, by simp [hlt], hq, ?_⟩, ?_⟩
      · intro k c2 hk hki
        simp only at hk
        omega
      · cases flag
        · simp
        · have : isWhitespace tl.GetTokens[idx] = false := by simpa [qualifies] using hq
          simp [this]
    · have hq2 : qualifies flag tl.GetTokens[idx] = false := by simpa using hq
      have hflag : flag = true := by
        cases flag
        · simp [qualifies] at hq2
        · rfl
      have hws : isWhitespace tl.GetTokens[idx] = true := by
        subst hflag
        simpa [qualifies] using hq2
      simp only [hflag, hws, if_true, Bool.true_eq_false, if_false]
      subst hflag
      rcases ih (some tl.GetTokens[idx]) (idx + 1) (by omega) with ⟨i, c, hfirst, hres⟩ | ⟨hnone, hres⟩
      · left
        refine ⟨i, c, ?_, hres⟩
        obtain ⟨h1, h2, h3, h4⟩ := hfirst
        simp only at h1 h2 h4
        refine ⟨by simp only; omega, h2, h3, ?_⟩
        intro k c2 hk hki hc2
        simp only at hk hc2
        by_cases hkidx : k = idx
        · subst hkidx
          rw [List.getElem?_eq_getElem hlt] at hc2
          cases hc2
          exact hq2
        · exact h4 k c2 (by omega) hki hc2
      · right
        refine ⟨?_, hres⟩
        rintro ⟨j, c, hj, hc, hqc⟩
        simp only at hj hc
        by_cases hjidx : j = idx
        · subst hjidx
          rw [List.getElem?_eq_getElem hlt] at hc
          cases hc
          exact hq hqc
        · exact hnone ⟨j, c, by simp only; omega, hc, hqc⟩

/-- The two ways `PeekNode` can end, read on the receiver. -/
theorem NodeReader.PeekNode_cases (nr : NodeReader) (flag : Bool) :
    (∃ i c, IsFirstQualifying nr flag i c ∧ nr.PeekNode flag = ((i, some c), nr)) ∨
    (¬ SomeQualifies nr flag ∧ nr.PeekNode flag = ((0, none), nr)) := by
  rcases NodeReader.PeekNode.loop_cases flag nr.CopyReader with ⟨i, c, hfirst, hres⟩ | ⟨hnone, hres⟩
  · exact Or.inl ⟨i, c, hfirst, by simp [NodeReader.PeekNode, hres]⟩
  · exact Or.inr ⟨hnone, by simp [NodeReader.PeekNode, hres]⟩

/-- C6: `PeekNode(flag)` returns `(i, children[i])` where `i` is the least index
from `Index` on whose child qualifies (any child with the flag off, any child
that is not a whitespace-kind Leaf with the flag on), and it returns the none
value `(0, nil)` exactly when no child at an index from `Index` on qualifies. -/
theorem C6_PeekNode_first_qualifying (nr : NodeReader) (flag : Bool) :
    (∀ c, qualifies flag c = true ↔
      (flag = false ∨ ¬ ∃ tok, c = Node.Leaf tok ∧ tok.Kind = token.Kind.Whitespace)) ∧
    ((∃ j c, nr.Index ≤ j ∧ nr.Node.GetTokens[j]? = some c ∧ qualifies flag c = true) →
      ∃ i n, (nr.PeekNode flag).1 = (i, some n)) ∧
    (∀ i n, (nr.PeekNode flag).1 = (i, some n) →
      nr.Index ≤ i ∧ nr.Node.GetTokens[i]? = some n ∧ qualifies flag n = true ∧
        ∀ k d, nr.Index ≤ k → k < i → nr.Node.GetTokens[k]? = some d →
          qualifies flag d = false) ∧
    ((nr.PeekNode flag).1 = (0, none) ↔
      ¬ ∃ j c, nr.Index ≤ j ∧ nr.Node.GetTokens[j]? = some c ∧ qualifies flag c = true) := by
  refine ⟨qualifies_iff flag, ?_, ?_, ?_⟩
  · intro hsome
    rcases NodeReader.PeekNode_cases nr flag with ⟨i, c, -, hres⟩ | ⟨hnone, -⟩
    · exact ⟨i, c, by rw [hres]⟩
    · exact absurd hsome hnone
  · intro i n hpeek
    rcases NodeReader.PeekNode_cases nr flag with ⟨i2, c, hfirst, hres⟩ | ⟨-, hres⟩
    · rw [hres] at hpeek
      simp only [Prod.mk.injEq, Option.some.injEq] at hpeek
      obtain ⟨hi, hc⟩ := hpeek
      subst hi hc
      exact hfirst
    · rw [hres] at hpeek
      simp at hpeek
  · rcases NodeReader.PeekNode_cases nr flag with ⟨i, c, hfirst, hres⟩ | ⟨hnone, hres⟩
    · rw [hres]
      constructor
      · intro h
        simp at h
      · intro h
        exact absurd hfirst.someQualifies h
    · rw [hres]
      exact ⟨fun _ => hnone, fun _ => rfl⟩

/-- C6, at a concrete input: the list `[WS, y]` peeked from index 0 with the flag
on; a child qualifies and `PeekNode` returns a node. -/
theorem C6_PeekNode_first_qualifying_witness :
    (∃ j c, 0 ≤ j ∧
      [Node.Leaf ⟨token.Kind.Whitespace, none, " "⟩,
        Node.Leaf ⟨token.Kind.Identifier, none, "y"⟩][j]? = some c ∧ qualifies true c = true) ∧
    ∃ i n, (NodeReader.PeekNode
      ⟨⟨[Node.Leaf ⟨token.Kind.Whitespace, none, " "⟩,
        Node.Leaf ⟨token.Kind.Identifier, none, "y"⟩]⟩, none, 0⟩ true).1 = (i, some n) :=
  have hq : ∃ j c, 0 ≤ j ∧
      [Node.Leaf ⟨token.Kind.Whitespace, none, " "⟩,
        Node.Leaf ⟨token.Kind.Identifier, none, "y"⟩][j]? = some c ∧ qualifies true c = true :=
    ⟨1, Node.Leaf ⟨token.Kind.Identifier, none, "y"⟩, Nat.zero_le _, rfl, rfl⟩
  ⟨hq, (C6_PeekNode_first_qualifying
    ⟨⟨[Node.Leaf ⟨token.Kind.Whitespace, none, " "⟩,
        Node.Leaf ⟨token.Kind.Identifier, none, "y"⟩]⟩, none, 0⟩ true).2.1 hq⟩

/-! ## Searching -/

/-- Stepping keeps the child list and never moves the index back. -/
theorem NodeReader.NextNode_frame (nr : NodeReader) (flag : Bool) :
    (nr.NextNode flag).2.Node = nr.Node ∧ nr.Index ≤ (nr.NextNode flag).2.Index := by
  rcases NodeReader.NextNode_cases nr flag with ⟨i, c, hfirst, hres⟩ | ⟨-, hres⟩
  · rw [hres]
    exact ⟨rfl, Nat.le_succ_of_le hfirst.1⟩
  · rw [hres]
    by_cases h : nr.Index < nr.Node.GetTokens.length
    · simp only [h, if_true]
      exact ⟨trivial, Nat.le_of_lt h⟩
    · simp only [h, if_false]
      exact ⟨trivial, le_refl _⟩

/-- One unfolding of the loop of `FindNode`. -/
theorem NodeReader.FindNode.loop_succ (flag : Bool) (nm : NodeMatcher) (nr tmp : NodeReader)
    (fuel : Nat) :
    NodeReader.FindNode.loop flag nm nr (fuel + 1) tmp =
      if h : tmp.Index < tmp.Node.GetTokens.length then
        if nm.IsMatchNodeType tmp.Node.GetTokens[tmp.Index] = true then
          Outcome.returns (some (tmp, tmp.Node.GetTokens[tmp.Index]), nr)
        else if isTokenList tmp.CurNode = true then
          NodeReader.FindNode.loop flag nm nr fuel tmp
        else
          match asToken nr.CurNode with
          | none => Outcome.panics
          | some sqlTok =>
            if (nm.IsMatchTokens sqlTok || nm.IsMatchSQLType sqlTok ||
                nm.IsMatchKeyword sqlTok) = true then
              Outcome.returns (some (tmp, tmp.Node.GetTokens[tmp.Index]), nr)
            else NodeReader.FindNode.loop flag nm nr fuel (tmp.NextNode flag).2
      else Outcome.returns (none, nr) := by
  rw [NodeReader.FindNode.loop]
  by_cases h : tmp.Index < tmp.Node.GetTokens.length <;> simp [NodeReader.hasNext, h]

/-- What a returning run of the loop of `FindNode` gives back: the receiver as it
was, and, next to a node, the scanning copy standing at that node. -/
theorem NodeReader.FindNode.loop_returns (flag : Bool) (nm : NodeMatcher) (nr : NodeReader)
    (fuel : Nat) (tmp : NodeReader) (hNode : tmp.Node = nr.Node) (hIdx : nr.Index ≤ tmp.Index)
    (res : Option (NodeReader × ast.Node)) (nr2 : NodeReader)
    (hret : NodeReader.FindNode.loop flag nm nr fuel tmp = Outcome.returns (res, nr2)) :
    nr2 = nr ∧ ∀ r2 n, res = some (r2, n) →
      r2.Node = nr.Node ∧ nr.Index ≤ r2.Index ∧ r2.Node.GetTokens[r2.Index]? = some n := by
  induction fuel generalizing tmp with
  | zero =>
    rw [NodeReader.FindNode.loop] at hret
    cases hret
  | succ fuel ih =>
    rw [NodeReader.FindNode.loop_succ] at hret
    by_cases h : tmp.Index < tmp.Node.GetTokens.length
    · simp only [h, dite_true] at hret
      have hhere : ∀ r2 n, some (tmp, tmp.Node.GetTokens[tmp.Index]) = some (r2, n) →
          r2.Node = nr.Node ∧ nr.Index ≤ r2.Index ∧ r2.Node.GetTokens[r2.Index]? = some n := by
        intro r2 n heq
        simp only [Option.some.injEq, Prod.mk.injEq] at heq
        obtain ⟨h1, h2⟩ := heq
        subst h1 h2
        exact ⟨hNode, hIdx, by simp [h]⟩
      by_cases hpred : nm.IsMatchNodeType tmp.Node.GetTokens[tmp.Index] = true
      · simp only [hpred, if_true, Outcome.returns.injEq, Prod.mk.injEq] at hret
        obtain ⟨h1, h2⟩ := hret
        subst h1
        exact ⟨h2.symm, hhere⟩
      · simp only [hpred, Bool.false_eq_true, if_false] at hret
        by_cases hlist : isTokenList tmp.CurNode = true
        · simp only [hlist, if_true] at hret
          exact ih tmp hNode hIdx hret
        · simp only [hlist, Bool.false_eq_true, if_false] at hret
          cases htok : asToken nr.CurNode with
          | none =>
            rw [htok] at hret
            cases hret
          | some sqlTok =>
            rw [htok] at hret
            simp only at hret
            by_cases hlex : (nm.IsMatchTokens sqlTok || nm.IsMatchSQLType sqlTok ||
                nm.IsMatchKeyword sqlTok) = true
            · simp only [hlex, if_true, Outcome.returns.injEq, Prod.mk.injEq] at hret
              obtain ⟨h1, h2⟩ := hret
              subst h1
              exact ⟨h2.symm, hhere⟩
            · simp only [hlex, Bool.false_eq_true, if_false] at hret
              have hframe := NodeReader.NextNode_frame tmp flag
              exact ih (tmp.NextNode flag).2 (hframe.1.trans hNode) (le_trans hIdx hframe.2) hret
    · simp only [h, dite_false, Outcome.returns.injEq, Prod.mk.injEq] at hret
      obtain ⟨h1, h2⟩ := hret
      subst h1
      exact ⟨h2.symm, fun r2 n hc => by cases hc⟩

/-- C2: `FindNode` hands back a node its matcher rejects.  The reader over
`[comma, x]` has taken one step, so its `CurNode` is the comma and its `Index`
is 1.  Searching for a comma from there, the loop looks at `x`, tests the three
sets on the token of the receiver's `CurNode` (the comma) and returns `x`, on
which `IsMatch` is false. -/
theorem C2_FindNode_returns_rejected_node (fuel : Nat) (flag : Bool) :
    ((NewNodeReader ⟨[commaLeaf, identLeaf "x"]⟩).NextNode false).2 =
        { Node := ⟨[commaLeaf, identLeaf "x"]⟩, CurNode := some commaLeaf, Index := 1 } ∧
    NodeReader.FindNode (fuel + 1)
        { Node := ⟨[commaLeaf, identLeaf "x"]⟩, CurNode := some commaLeaf, Index := 1 }
        flag commaMatcher =
      Outcome.returns
        (some ({ Node := ⟨[commaLeaf, identLeaf "x"]⟩, CurNode := none, Index := 1 },
            identLeaf "x"),
          { Node := ⟨[commaLeaf, identLeaf "x"]⟩, CurNode := some commaLeaf, Index := 1 }) ∧
    commaMatcher.IsMatch (identLeaf "x") = Outcome.returns false := by
  refine ⟨?_, ?_, ?_⟩
  · rw [NodeReader.NextNode_unfold]
    simp [NewNodeReader]
  · rw [NodeReader.FindNode, NodeReader.FindNode.loop_succ]
    simp [NodeReader.CopyReader, commaMatcher, commaLeaf, identLeaf, NodeMatcher.IsMatchNodeType,
      isTokenList, asToken, NodeMatcher.IsMatchTokens, SQLToken.MatchKind]
  · simp [NodeMatcher.IsMatch, commaMatcher, identLeaf, NodeMatcher.IsMatchNodeType,
      NodeMatcher.IsMatchTokens, NodeMatcher.IsMatchSQLType, NodeMatcher.IsMatchKeyword,
      SQLToken.MatchKind]

/-- C3: `FindNode` misses a matching child and reports a child that does not
match.  On `[x, y, comma]` after one step (`CurNode` is `x`, `Index` is 1) the
search for a comma returns `(nil, nil)` although the child at index 2 satisfies
`IsMatch`; on `[comma, x, y]` after one step it returns `x` although no child
from index 1 on satisfies `IsMatch`.  The matcher matches no whitespace leaf. -/
theorem C3_FindNode_misses_first_match (fuel : Nat) (flag : Bool) :
    (∀ tok : SQLToken, tok.Kind = token.Kind.Whitespace →
      commaMatcher.IsMatch (Node.Leaf tok) = Outcome.returns false) ∧
    ((NewNodeReader ⟨[identLeaf "x", identLeaf "y", commaLeaf]⟩).NextNode false).2 =
      ⟨⟨[identLeaf "x", identLeaf "y", commaLeaf]⟩, some (identLeaf "x"), 1⟩ ∧
    ((NewNodeReader ⟨[commaLeaf, identLeaf "x", identLeaf "y"]⟩).NextNode false).2 =
      ⟨⟨[commaLeaf, identLeaf "x", identLeaf "y"]⟩, some commaLeaf, 1⟩ ∧
    (NodeReader.FindNode (fuel + 3)
        { Node := ⟨[identLeaf "x", identLeaf "y", commaLeaf]⟩, CurNode := some (identLeaf "x"),
          Index := 1 } flag commaMatcher =
      Outcome.returns (none,
        { Node := ⟨[identLeaf "x", identLeaf "y", commaLeaf]⟩, CurNode := some (identLeaf "x"),
          Index := 1 }) ∧
     commaMatcher.IsMatch commaLeaf = Outcome.returns true) ∧
    (NodeReader.FindNode (fuel + 1)
        { Node := ⟨[commaLeaf, identLeaf "x", identLeaf "y"]⟩, CurNode := some commaLeaf,
          Index := 1 } flag commaMatcher =
      Outcome.returns
        (some (⟨⟨[commaLeaf, identLeaf "x", identLeaf "y"]⟩, none, 1⟩, identLeaf "x"),
          ⟨⟨[commaLeaf, identLeaf "x", identLeaf "y"]⟩, some commaLeaf, 1⟩) ∧
     commaMatcher.IsMatch (identLeaf "x") = Outcome.returns false ∧
     commaMatcher.IsMatch (identLeaf "y") = Outcome.returns false) := by
  have hmatch : ∀ tok : SQLToken, commaMatcher.IsMatch (Node.Leaf tok) =
      Outcome.returns (decide (tok.Kind = token.Kind.Comma)) := by
    intro tok
    by_cases hk : tok.Kind = token.Kind.Comma <;>
      simp [NodeMatcher.IsMatch, commaMatcher, NodeMatcher.IsMatchNodeType,
        NodeMatcher.IsMatchTokens, NodeMatcher.IsMatchSQLType, NodeMatcher.IsMatchKeyword,
        SQLToken.MatchKind, hk]
  refine ⟨?_, ?_, ?_, ⟨?_, ?_⟩, ?_, ?_, ?_⟩
  · intro tok hk
    rw [hmatch, hk]
    rfl
  · simp [NodeReader.NextNode_unfold, NewNodeReader]
  · simp [NodeReader.NextNode_unfold, NewNodeReader]
  · cases flag <;>
      simp [NodeReader.FindNode, NodeReader.FindNode.loop_succ, NodeReader.NextNode_unfold,
        NodeReader.CopyReader, commaMatcher, commaLeaf, identLeaf, NodeMatcher.IsMatchNodeType,
        isTokenList, asToken, NodeMatcher.IsMatchTokens, NodeMatcher.IsMatchSQLType,
        NodeMatcher.IsMatchKeyword, SQLToken.MatchKind, isWhitespace]
  · exact hmatch _
  · rw [NodeReader.FindNode, NodeReader.FindNode.loop_succ]
    simp [NodeReader.CopyReader, commaMatcher, commaLeaf, identLeaf, NodeMatcher.IsMatchNodeType,
      isTokenList, asToken, NodeMatcher.IsMatchTokens, SQLToken.MatchKind]
  · exact hmatch _
  · exact hmatch _

/-- C4, as stated, fails: on `[A, B, C, D]` read up to index 2 (two steps taken,
`CurNode` is `B`), the search with a type predicate accepting only `C` returns
`C`, the child at index 2 and at no other index, with a reader whose `Index` is
2 and not 3; the next `NextNode(false)` of that reader yields `C`, not `D`. -/
theorem C4_FindNode_index_counterexample :
    (((NewNodeReader ⟨[identLeaf "A", identLeaf "B", identLeaf "C", identLeaf "D"]⟩).NextNode
        false).2.NextNode false).2 =
      ⟨⟨[identLeaf "A", identLeaf "B", identLeaf "C", identLeaf "D"]⟩, some (identLeaf "B"), 2⟩ ∧
    NodeReader.FindNode 1
        ⟨⟨[identLeaf "A", identLeaf "B", identLeaf "C", identLeaf "D"]⟩, some (identLeaf "B"), 2⟩
        false (textPredicateMatcher "C") =
      Outcome.returns
        (some (⟨⟨[identLeaf "A", identLeaf "B", identLeaf "C", identLeaf "D"]⟩, none, 2⟩,
            identLeaf "C"),
          ⟨⟨[identLeaf "A", identLeaf "B", identLeaf "C", identLeaf "D"]⟩,
            some (identLeaf "B"), 2⟩) ∧
    (∀ i, [identLeaf "A", identLeaf "B", identLeaf "C", identLeaf "D"][i]? = some (identLeaf "C") ↔
      i = 2) ∧
    (⟨⟨[identLeaf "A", identLeaf "B", identLeaf "C", identLeaf "D"]⟩, none, 2⟩ : NodeReader).Index
      ≠ 2 + 1 ∧
    NodeReader.NextNode
        ⟨⟨[identLeaf "A", identLeaf "B", identLeaf "C", identLeaf "D"]⟩, none, 2⟩ false =
      (true, ⟨⟨[identLeaf "A", identLeaf "B", identLeaf "C", identLeaf "D"]⟩,
        some (identLeaf "C"), 3⟩) ∧
    identLeaf "C" ≠ identLeaf "D" := by
  refine ⟨?_, ?_, ?_, by decide, ?_, ?_⟩
  · simp [NodeReader.NextNode_unfold, NewNodeReader]
  · simp [NodeReader.FindNode, NodeReader.FindNode.loop_succ, NodeReader.CopyReader,
      textPredicateMatcher, identLeaf, NodeMatcher.IsMatchNodeType]
  · intro i
    match i with
    | 0 => simp [identLeaf]
    | 1 => simp [identLeaf]
    | 2 => simp [identLeaf]
    | 3 => simp [identLeaf]
    | k + 4 => simp [identLeaf]
  · simp [NodeReader.NextNode_unfold]
  · simp [identLeaf]

/-- C4, amended: whenever `FindNode` returns a reader `r2` together with a node,
`r2` reads the same child list, its `Index` is not before the receiver's and is
the index of the returned node itself (so it is below the length), and the
next `r2.NextNode(false)` consumes that same node and moves `Index` one past it. -/
theorem C4_FindNode_reader_at_match (fuel : Nat) (nr : NodeReader) (flag : Bool)
    (nm : NodeMatcher) (r2 nr2 : NodeReader) (n : Node)
    (hret : NodeReader.FindNode fuel nr flag nm = Outcome.returns (some (r2, n), nr2)) :
    r2.Node = nr.Node ∧ nr.Index ≤ r2.Index ∧ r2.Index < nr.Node.GetTokens.length ∧
    nr.Node.GetTokens[r2.Index]? = some n ∧
    r2.NextNode false = (true, { Node := nr.Node, CurNode := some n, Index := r2.Index + 1 }) := by
  obtain ⟨-, hres⟩ := NodeReader.FindNode.loop_returns flag nm nr fuel nr.CopyReader rfl
    (le_refl _) (some (r2, n)) nr2 hret
  obtain ⟨hNode, hIdx, hget⟩ := hres r2 n rfl
  obtain ⟨tl, cur, idx⟩ := r2
  simp only at hNode hIdx hget
  subst hNode
  have hlt : idx < nr.Node.GetTokens.length := (List.getElem?_eq_some_iff.mp hget).1
  have hn : nr.Node.GetTokens[idx] = n := (List.getElem?_eq_some_iff.mp hget).2
  refine ⟨rfl, hIdx, hlt, hget, ?_⟩
  rw [NodeReader.NextNode_unfold]
  simp [hlt, hn]

/-- C4 amended, at a concrete input: the search for `C` on `[A, B, C, D]` from
index 2. -/
theorem C4_FindNode_reader_at_match_witness :
    NodeReader.FindNode 1
        ⟨⟨[identLeaf "A", identLeaf "B", identLeaf "C", identLeaf "D"]⟩, some (identLeaf "B"), 2⟩
        false (textPredicateMatcher "C") =
      Outcome.returns
        (some (⟨⟨[identLeaf "A", identLeaf "B", identLeaf "C", identLeaf "D"]⟩, none, 2⟩,
            identLeaf "C"),
          ⟨⟨[identLeaf "A", identLeaf "B", identLeaf "C", identLeaf "D"]⟩,
            some (identLeaf "B"), 2⟩) ∧
    ((⟨⟨[identLeaf "A", identLeaf "B", identLeaf "C", identLeaf "D"]⟩, none, 2⟩ : NodeReader).Node =
      ⟨[identLeaf "A", identLeaf "B", identLeaf "C", identLeaf "D"]⟩ ∧
    2 ≤ 2 ∧ 2 < [identLeaf "A", identLeaf "B", identLeaf "C", identLeaf "D"].length ∧
    [identLeaf "A", identLeaf "B", identLeaf "C", identLeaf "D"][2]? = some (identLeaf "C") ∧
    NodeReader.NextNode
        ⟨⟨[identLeaf "A", identLeaf "B", identLeaf "C", identLeaf "D"]⟩, none, 2⟩ false =
      (true, ⟨⟨[identLeaf "A", identLeaf "B", identLeaf "C", identLeaf "D"]⟩,
        some (identLeaf "C"), 2 + 1⟩)) :=
  have hret : NodeReader.FindNode 1
        ⟨⟨[identLeaf "A", identLeaf "B", identLeaf "C", identLeaf "D"]⟩, some (identLeaf "B"), 2⟩
        false (textPredicateMatcher "C") =
      Outcome.returns
        (some (⟨⟨[identLeaf "A", identLeaf "B", identLeaf "C", identLeaf "D"]⟩, none, 2⟩,
            identLeaf "C"),
          ⟨⟨[identLeaf "A", identLeaf "B", identLeaf "C", identLeaf "D"]⟩,
            some (identLeaf "B"), 2⟩) := by
    simp [NodeReader.FindNode, NodeReader.FindNode.loop_succ, NodeReader.CopyReader,
      textPredicateMatcher, identLeaf, NodeMatcher.IsMatchNodeType]
  ⟨hret, C4_FindNode_reader_at_match 1 _ false (textPredicateMatcher "C") _ _ _ hret⟩

/-- C7, as stated, fails: the reader over `[comma]` that has taken one step has
the comma as `CurNode`; its copy has no `CurNode`, and `CurNodeIs` with the comma
matcher is true on the reader and false on the copy. -/
theorem C7_CopyReader_drops_CurNode_counterexample :
    ((NewNodeReader ⟨[commaLeaf]⟩).NextNode false).2 = ⟨⟨[commaLeaf]⟩, some commaLeaf, 1⟩ ∧
    (NodeReader.CopyReader ⟨⟨[commaLeaf]⟩, some commaLeaf, 1⟩).CurNode = none ∧
    (NodeReader.CopyReader ⟨⟨[commaLeaf]⟩, some commaLeaf, 1⟩).CurNode ≠
      (⟨⟨[commaLeaf]⟩, some commaLeaf, 1⟩ : NodeReader).CurNode ∧
    NodeReader.CurNodeIs ⟨⟨[commaLeaf]⟩, some commaLeaf, 1⟩ commaMatcher = Outcome.returns true ∧
    (NodeReader.CopyReader ⟨⟨[commaLeaf]⟩, some commaLeaf, 1⟩).CurNodeIs commaMatcher =
      Outcome.returns false := by
  refine ⟨?_, rfl, ?_, ?_, rfl⟩
  · simp [NodeReader.NextNode_unfold, NewNodeReader]
  · simp [NodeReader.CopyReader]
  · simp [NodeReader.CurNodeIs, NodeMatcher.IsMatch, commaMatcher, commaLeaf, Outcome.bind,
      NodeMatcher.IsMatchNodeType, NodeMatcher.IsMatchTokens, SQLToken.MatchKind]

/-- C7, amended: `CopyReader` returns a reader over the same child list with the
same `Index` and with no last-visited node (`CurNode` is nil); consequently
`CurNodeIs` is false on the copy for every matcher. -/
theorem C7_CopyReader_same_list_and_index (nr : NodeReader) :
    nr.CopyReader.Node = nr.Node ∧ nr.CopyReader.Index = nr.Index ∧
    nr.CopyReader.CurNode = none ∧
    ∀ nm, nr.CopyReader.CurNodeIs nm = Outcome.returns false :=
  ⟨rfl, rfl, rfl, fun _ => rfl⟩

/-- C8: whenever `FindNode` returns, with a match or with `(nil, nil)`, the
receiver has the child list, the `Index` and the `CurNode` it had before. -/
theorem C8_FindNode_receiver_unchanged (fuel : Nat) (nr : NodeReader) (flag : Bool)
    (nm : NodeMatcher) (res : Option (NodeReader × Node)) (nr2 : NodeReader)
    (hret : NodeReader.FindNode fuel nr flag nm = Outcome.returns (res, nr2)) :
    nr2.Node = nr.Node ∧ nr2.Index = nr.Index ∧ nr2.CurNode = nr.CurNode := by
  obtain ⟨h, -⟩ := NodeReader.FindNode.loop_returns flag nm nr fuel nr.CopyReader rfl
    (le_refl _) res nr2 hret
  subst h
  exact ⟨rfl, rfl, rfl⟩

/-- C8, at a concrete input: the search for a comma on `[x, y, comma]` from index
1, which ends with `(nil, nil)`. -/
theorem C8_FindNode_receiver_unchanged_witness :
    NodeReader.FindNode 3
        ⟨⟨[identLeaf "x", identLeaf "y", commaLeaf]⟩, some (identLeaf "x"), 1⟩ false commaMatcher =
      Outcome.returns (none,
        ⟨⟨[identLeaf "x", identLeaf "y", commaLeaf]⟩, some (identLeaf "x"), 1⟩) ∧
    ((⟨⟨[identLeaf "x", identLeaf "y", commaLeaf]⟩, some (identLeaf "x"), 1⟩ : NodeReader).Node =
      ⟨[identLeaf "x", identLeaf "y", commaLeaf]⟩ ∧
    (⟨⟨[identLeaf "x", identLeaf "y", commaLeaf]⟩, some (identLeaf "x"), 1⟩ : NodeReader).Index = 1 ∧
    (⟨⟨[identLeaf "x", identLeaf "y", commaLeaf]⟩, some (identLeaf "x"), 1⟩ : NodeReader).CurNode =
      some (identLeaf "x")) :=
  have hret : NodeReader.FindNode 3
        ⟨⟨[identLeaf "x", identLeaf "y", commaLeaf]⟩, some (identLeaf "x"), 1⟩ false commaMatcher =
      Outcome.returns (none,
        ⟨⟨[identLeaf "x", identLeaf "y", commaLeaf]⟩, some (identLeaf "x"), 1⟩) := by
    simp [NodeReader.FindNode, NodeReader.FindNode.loop_succ, NodeReader.NextNode_unfold,
      NodeReader.CopyReader, commaMatcher, commaLeaf, identLeaf, NodeMatcher.IsMatchNodeType,
      isTokenList, asToken, NodeMatcher.IsMatchTokens, NodeMatcher.IsMatchSQLType,
      NodeMatcher.IsMatchKeyword, SQLToken.MatchKind, isWhitespace]
  ⟨hret, C8_FindNode_receiver_unchanged 3 _ false commaMatcher none _ hret⟩

/-- C9: `FindNode` fails fatally on well-formed readers.  On a freshly created
reader over `[x]` (`CurNode` is nil), and on the reader over `[(…), x]` that has
stepped onto the Composite (`CurNode` is that Composite, `Index` is 1), the type
assertion `nr.CurNode.(ast.Token)` fails and the call of `GetToken()` on the nil
result panics, whatever the flag; the matcher expecting identifiers, which `x`
satisfies, panics in the same way. -/
theorem C9_FindNode_panics_on_fresh_reader (fuel : Nat) (flag : Bool) (toks : List Node) :
    NodeReader.FindNode (fuel + 1) (NewNodeReader ⟨[identLeaf "x"]⟩) flag commaMatcher =
      Outcome.panics ∧
    NodeReader.FindNode (fuel + 1) (NewNodeReader ⟨[identLeaf "x"]⟩) flag
      ⟨none, some [token.Kind.Identifier], none, none⟩ = Outcome.panics ∧
    ((NewNodeReader ⟨[Node.Composite toks, identLeaf "x"]⟩).NextNode flag).2 =
      ⟨⟨[Node.Composite toks, identLeaf "x"]⟩, some (Node.Composite toks), 1⟩ ∧
    NodeReader.FindNode (fuel + 1)
      ⟨⟨[Node.Composite toks, identLeaf "x"]⟩, some (Node.Composite toks), 1⟩ flag
      commaMatcher = Outcome.panics := by
  refine ⟨?_, ?_, ?_, ?_⟩
  · simp [NodeReader.FindNode, NodeReader.FindNode.loop_succ, NodeReader.CopyReader,
      NewNodeReader, commaMatcher, NodeMatcher.IsMatchNodeType, isTokenList, asToken]
  · simp [NodeReader.FindNode, NodeReader.FindNode.loop_succ, NodeReader.CopyReader,
      NewNodeReader, NodeMatcher.IsMatchNodeType, isTokenList, asToken]
  · rw [NodeReader.NextNode_unfold]
    simp [NewNodeReader, isWhitespace]
  · simp [NodeReader.FindNode, NodeReader.FindNode.loop_succ, NodeReader.CopyReader,
      commaMatcher, NodeMatcher.IsMatchNodeType, isTokenList, asToken]

/-- The scanning states in which the loop of `FindNode` spins: the scanning copy
has a Composite as `CurNode`, a next child exists, and the type predicate rejects
it.  The `continue` branch leaves the scanning copy as it is, so no amount of
fuel ends the loop. -/
theorem NodeReader.FindNode.loop_spins (flag : Bool) (nm : NodeMatcher) (nr tmp : NodeReader)
    (hlt : tmp.Index < tmp.Node.GetTokens.length)
    (hpred : nm.IsMatchNodeType tmp.Node.GetTokens[tmp.Index] = false)
    (hlist : isTokenList tmp.CurNode = true) (fuel : Nat) :
    NodeReader.FindNode.loop flag nm nr fuel tmp = Outcome.outOfFuel := by
  induction fuel with
  | zero => rfl
  | succ fuel ih =>
    rw [NodeReader.FindNode.loop_succ]
    simp [hlt, hpred, hlist, ih]

/-- C10: `FindNode` does not terminate on the reader over `[x, (), y]` that has
taken one step (`CurNode` is `x`, `Index` is 1), searching for a comma.  The
first iteration steps the scanning copy onto the Composite `()`; from then on
every iteration takes the `continue` branch without moving the scanning index,
so the call is still running after any number of iterations. -/
theorem C10_FindNode_loops_forever (fuel : Nat) (flag : Bool) :
    ((NewNodeReader ⟨[identLeaf "x", Node.Composite [], identLeaf "y"]⟩).NextNode false).2 =
      ⟨⟨[identLeaf "x", Node.Composite [], identLeaf "y"]⟩, some (identLeaf "x"), 1⟩ ∧
    NodeReader.FindNode fuel
      ⟨⟨[identLeaf "x", Node.Composite [], identLeaf "y"]⟩, some (identLeaf "x"), 1⟩ flag
      commaMatcher = Outcome.outOfFuel := by
  refine ⟨?_, ?_⟩
  · simp [NodeReader.NextNode_unfold, NewNodeReader]
  · cases fuel with
    | zero => rfl
    | succ fuel =>
      have hspin := NodeReader.FindNode.loop_spins flag commaMatcher
        ⟨⟨[identLeaf "x", Node.Composite [], identLeaf "y"]⟩, some (identLeaf "x"), 1⟩
        ⟨⟨[identLeaf "x", Node.Composite [], identLeaf "y"]⟩, some (Node.Composite []), 2⟩
        (by decide) rfl rfl fuel
      have hstep : ∀ flag : Bool, (NodeReader.NextNode
          ⟨⟨[identLeaf "x", Node.Composite [], identLeaf "y"]⟩, none, 1⟩ flag).2 =
          ⟨⟨[identLeaf "x", Node.Composite [], identLeaf "y"]⟩, some (Node.Composite []), 2⟩ := by
        intro flag
        rw [NodeReader.NextNode_unfold]
        simp [isWhitespace]
      rw [NodeReader.FindNode, NodeReader.FindNode.loop_succ]
      simp only [NodeReader.CopyReader, hstep]
      simpa [commaMatcher, identLeaf, NodeMatcher.IsMatchNodeType, isTokenList, asToken,
        NodeMatcher.IsMatchTokens, NodeMatcher.IsMatchSQLType, NodeMatcher.IsMatchKeyword,
        SQLToken.MatchKind] using hspin

/-! ## The SELECT scenario -/

/-- C11: the scenario fails fatally at its first call.  On
`[Keyword(SELECT), WS, x, Comma, WS, y]` the child at index 0 is the keyword node
and the matcher with `ExpectKeyword = [SELECT]` accepts it, yet
`FindNode(true, matcher)` on the reader fresh from `NewNodeReader` panics: the
keyword test is made on the token of the receiver's `CurNode`, which is nil.  The
second search fares no better: the comma matcher accepts the child at index 3,
but from a reader at `Index` 1 without `CurNode` the search panics, and from the
reader that has stepped onto the keyword (`Index` 1) it returns `(nil, nil)`. -/
theorem C11_select_scenario_panics (fuel : Nat) (cls : Option dialect.KeywordKind) :
    (selectList cls).GetTokens[0]? = some (keywordLeaf cls "SELECT") ∧
    selectMatcher.IsMatch (keywordLeaf cls "SELECT") = Outcome.returns true ∧
    NodeReader.FindNode (fuel + 1) (NewNodeReader (selectList cls)) true selectMatcher =
      Outcome.panics ∧
    (selectList cls).GetTokens[3]? = some commaLeaf ∧
    commaMatcher.IsMatch commaLeaf = Outcome.returns true ∧
    NodeReader.FindNode (fuel + 1) ⟨selectList cls, none, 1⟩ true commaMatcher =
      Outcome.panics ∧
    (NewNodeReader (selectList cls)).NextNode true =
      (true, ⟨selectList cls, some (keywordLeaf cls "SELECT"), 1⟩) ∧
    NodeReader.FindNode (fuel + 4) ⟨selectList cls, some (keywordLeaf cls "SELECT"), 1⟩ true
        commaMatcher =
      Outcome.returns (none, ⟨selectList cls, some (keywordLeaf cls "SELECT"), 1⟩) := by
  refine ⟨rfl, ?_, ?_, rfl, ?_, ?_, ?_, ?_⟩
  · simp [NodeMatcher.IsMatch, selectMatcher, keywordLeaf, NodeMatcher.IsMatchNodeType,
      NodeMatcher.IsMatchTokens, NodeMatcher.IsMatchSQLType, NodeMatcher.IsMatchKeyword,
      SQLToken.MatchSQLKeyword]
  · simp [NodeReader.FindNode, NodeReader.FindNode.loop_succ, NodeReader.CopyReader,
      NewNodeReader, selectList, selectMatcher, NodeMatcher.IsMatchNodeType, isTokenList,
      asToken]
  · simp [NodeMatcher.IsMatch, commaMatcher, commaLeaf, NodeMatcher.IsMatchNodeType,
      NodeMatcher.IsMatchTokens, SQLToken.MatchKind]
  · simp [NodeReader.FindNode, NodeReader.FindNode.loop_succ, NodeReader.CopyReader,
      selectList, commaMatcher, NodeMatcher.IsMatchNodeType, isTokenList, asToken]
  · simp [NodeReader.NextNode_unfold, NewNodeReader, selectList, keywordLeaf, isWhitespace,
      SQLToken.MatchKind]
  · simp [NodeReader.FindNode, NodeReader.FindNode.loop_succ, NodeReader.NextNode_unfold,
      NodeReader.CopyReader, selectList, commaMatcher, keywordLeaf, whitespaceLeaf,
      identLeaf, commaLeaf, NodeMatcher.IsMatchNodeType, isTokenList, asToken,
      NodeMatcher.IsMatchTokens, NodeMatcher.IsMatchSQLType, NodeMatcher.IsMatchKeyword,
      SQLToken.MatchKind, isWhitespace]

/-! ## Counting steps -/

/-- On a reader with a last-visited node, `CurNodeIs` is `IsMatch` on that node. -/
theorem NodeReader.CurNodeIs_some (nr : NodeReader) (nm : NodeMatcher) (c : ast.Node)
    (hc : nr.CurNode = some c) : nr.CurNodeIs nm = nm.IsMatch c := by
  unfold NodeReader.CurNodeIs
  rw [hc]
  simp only
  generalize nm.IsMatch c = result
  cases result with
  | returns b => cases b <;> rfl
  | panics => rfl
  | outOfFuel => rfl

/-- The reader after `n` plain steps from the start of a list that has at least `n`
children. -/
theorem NextNodeTimes_false_NewNodeReader (list : TokenList) (n : Nat)
    (hn : n ≤ list.GetTokens.length) :
    NextNodeTimes false n (NewNodeReader list) =
      (true, ⟨list, if n = 0 then none else list.GetTokens[n - 1]?, n⟩) := by
  induction n with
  | zero => simp [NextNodeTimes, NewNodeReader]
  | succ n ih =>
    have hlt : n < list.GetTokens.length := by omega
    rw [NextNodeTimes, ih (by omega), NodeReader.NextNode_unfold]
    simp [hlt]

/-- C12: for a child list of length `L` and `1 ≤ N ≤ L`, starting from
`NewNodeReader(list)`, `N` consecutive `NextNode(false)` calls all return true,
after which `Index = N`, `CurNode` is the child at index `N - 1`, and
`CurNodeIs(nm)` is `nm.IsMatch` of that child for every matcher; on the freshly
created reader `CurNodeIs(nm)` is false for every matcher. -/
theorem C12_steps_count_and_CurNodeIs (list : TokenList) (N : Nat) (h1 : 1 ≤ N)
    (h2 : N ≤ list.GetTokens.length) :
    (∀ k, k ≤ N → (NextNodeTimes false k (NewNodeReader list)).1 = true) ∧
    (NextNodeTimes false N (NewNodeReader list)).2.Node = list ∧
    (NextNodeTimes false N (NewNodeReader list)).2.Index = N ∧
    (∃ c, list.GetTokens[N - 1]? = some c ∧
      (NextNodeTimes false N (NewNodeReader list)).2.CurNode = some c ∧
      ∀ nm, (NextNodeTimes false N (NewNodeReader list)).2.CurNodeIs nm = nm.IsMatch c) ∧
    (∀ nm, (NewNodeReader list).CurNodeIs nm = Outcome.returns false) := by
  have hN : N ≠ 0 := by omega
  have hlt : N - 1 < list.GetTokens.length := by omega
  refine ⟨?_, ?_, ?_, ?_, fun _ => rfl⟩
  · intro k hk
    rw [NextNodeTimes_false_NewNodeReader list k (by omega)]
  · rw [NextNodeTimes_false_NewNodeReader list N h2]
  · rw [NextNodeTimes_false_NewNodeReader list N h2]
  · refine ⟨list.GetTokens[N - 1], by simp [hlt], ?_, ?_⟩
    · rw [NextNodeTimes_false_NewNodeReader list N h2]
      simp [hN, hlt]
    · intro nm
      apply NodeReader.CurNodeIs_some
      rw [NextNodeTimes_false_NewNodeReader list N h2]
      simp [hN, hlt]

/-- C12, at a concrete input: two steps on `[x, comma, y]`. -/
theorem C12_steps_count_and_CurNodeIs_witness :
    (1 ≤ 2 ∧ 2 ≤ [identLeaf "x", commaLeaf, identLeaf "y"].length) ∧
    (NextNodeTimes false 2 (NewNodeReader ⟨[identLeaf "x", commaLeaf, identLeaf "y"]⟩)).2.Index
      = 2 ∧
    ∃ c, [identLeaf "x", commaLeaf, identLeaf "y"][2 - 1]? = some c ∧
      (NextNodeTimes false 2
        (NewNodeReader ⟨[identLeaf "x", commaLeaf, identLeaf "y"]⟩)).2.CurNode = some c ∧
      ∀ nm, (NextNodeTimes false 2
        (NewNodeReader ⟨[identLeaf "x", commaLeaf, identLeaf "y"]⟩)).2.CurNodeIs nm =
          nm.IsMatch c :=
  ⟨⟨by decide, by decide⟩,
    (C12_steps_count_and_CurNodeIs ⟨[identLeaf "x", commaLeaf, identLeaf "y"]⟩ 2
      (by decide) (by decide)).2.2.1,
    (C12_steps_count_and_CurNodeIs ⟨[identLeaf "x", commaLeaf, identLeaf "y"]⟩ 2
      (by decide) (by decide)).2.2.2.1⟩

/-! ## Exhaustion -/

/-- C13, as stated, fails: on the freshly created reader over `[WS]`,
`NextNode(true)` returns false and leaves `Index` 1 and the whitespace leaf as
`CurNode`, where the reader had `Index` 0 and no `CurNode` before the call. -/
theorem C13_NextNode_false_not_noop_counterexample :
    (NewNodeReader ⟨[whitespaceLeaf]⟩).NextNode true =
      (false, ⟨⟨[whitespaceLeaf]⟩, some whitespaceLeaf, 1⟩) ∧
    (NewNodeReader ⟨[whitespaceLeaf]⟩).Index = 0 ∧
    (NewNodeReader ⟨[whitespaceLeaf]⟩).CurNode = none ∧
    ((NewNodeReader ⟨[whitespaceLeaf]⟩).NextNode true).2.Index ≠
      (NewNodeReader ⟨[whitespaceLeaf]⟩).Index ∧
    ((NewNodeReader ⟨[whitespaceLeaf]⟩).NextNode true).2.CurNode ≠
      (NewNodeReader ⟨[whitespaceLeaf]⟩).CurNode := by
  have hstep : (NewNodeReader ⟨[whitespaceLeaf]⟩).NextNode true =
      (false, ⟨⟨[whitespaceLeaf]⟩, some whitespaceLeaf, 1⟩) := by
    simp [NodeReader.NextNode_unfold, NewNodeReader, whitespaceLeaf, isWhitespace,
      SQLToken.MatchKind]
  refine ⟨hstep, rfl, rfl, ?_, ?_⟩
  · rw [hstep]
    simp [NewNodeReader]
  · rw [hstep]
    simp [NewNodeReader]

/-- C13, amended: `NextNode(flag)` either returns true, having advanced just past
the first qualifying child, which becomes `CurNode`; or it returns false, and
then the reader is unchanged when `Index` was at or past the end, while
otherwise the flag is on, every remaining child is a whitespace leaf, `Index` is
the length of the list and `CurNode` is the last child.  With the flag off a
false result always leaves the reader unchanged. -/
theorem C13_NextNode_two_effects (nr : NodeReader) (flag : Bool) :
    ((nr.NextNode flag).1 = true →
      ∃ j c, (nr.Index ≤ j ∧ nr.Node.GetTokens[j]? = some c ∧ qualifies flag c = true ∧
          ∀ k d, nr.Index ≤ k → k < j → nr.Node.GetTokens[k]? = some d →
            qualifies flag d = false) ∧
        (nr.NextNode flag).2 = { Node := nr.Node, CurNode := some c, Index := j + 1 }) ∧
    ((nr.NextNode flag).1 = false →
      (nr.Node.GetTokens.length ≤ nr.Index → (nr.NextNode flag).2 = nr) ∧
      (nr.Index < nr.Node.GetTokens.length →
        flag = true ∧
        (∀ k c, nr.Index ≤ k → nr.Node.GetTokens[k]? = some c → isWhitespace c = true) ∧
        (nr.NextNode flag).2 =
          { Node := nr.Node, CurNode := nr.Node.GetTokens[nr.Node.GetTokens.length - 1]?,
            Index := nr.Node.GetTokens.length })) ∧
    (flag = false → (nr.NextNode flag).1 = false → (nr.NextNode flag).2 = nr) := by
  rcases NodeReader.NextNode_cases nr flag with ⟨i, c, hfirst, hres⟩ | ⟨hnone, hres⟩
  · rw [hres]
    refine ⟨fun _ => ⟨i, c, hfirst, rfl⟩, fun h => Bool.noConfusion h,
      fun _ h => Bool.noConfusion h⟩
  · have hall : ∀ k c, nr.Index ≤ k → nr.Node.GetTokens[k]? = some c →
        flag = true ∧ isWhitespace c = true := by
      intro k c hk hc
      have hq : qualifies flag c = false := by
        cases hqc : qualifies flag c
        · rfl
        · exact absurd ⟨k, c, hk, hc, hqc⟩ hnone
      cases flag <;> simp_all [qualifies]
    rw [hres]
    refine ⟨fun h => Bool.noConfusion h, fun _ => ⟨?_, ?_⟩, ?_⟩
    · intro hge
      have : ¬ nr.Index < nr.Node.GetTokens.length := by omega
      simp [this]
    · intro hlt
      refine ⟨(hall nr.Index _ (le_refl _) (List.getElem?_eq_getElem hlt)).1,
        fun k c hk hc => (hall k c hk hc).2, ?_⟩
      simp [hlt]
    · intro hflag _
      by_cases hlt : nr.Index < nr.Node.GetTokens.length
      · have := (hall nr.Index _ (le_refl _) (List.getElem?_eq_getElem hlt)).1
        rw [hflag] at this
        cases this
      · simp [hlt]

/-- C13 amended, at a concrete input: `NextNode(true)` on the fresh reader over
`[WS]` returns false and runs to the end of the list. -/
theorem C13_NextNode_two_effects_witness :
    ((NewNodeReader ⟨[whitespaceLeaf]⟩).NextNode true).1 = false ∧
    (NewNodeReader ⟨[whitespaceLeaf]⟩).Index <
      (NewNodeReader ⟨[whitespaceLeaf]⟩).Node.GetTokens.length ∧
    ((NewNodeReader ⟨[whitespaceLeaf]⟩).NextNode true).2 =
      { Node := (NewNodeReader ⟨[whitespaceLeaf]⟩).Node,
        CurNode := (NewNodeReader ⟨[whitespaceLeaf]⟩).Node.GetTokens[
          (NewNodeReader ⟨[whitespaceLeaf]⟩).Node.GetTokens.length - 1]?,
        Index := (NewNodeReader ⟨[whitespaceLeaf]⟩).Node.GetTokens.length } :=
  have hfalse : ((NewNodeReader ⟨[whitespaceLeaf]⟩).NextNode true).1 = false := by
    simp [NodeReader.NextNode_unfold, NewNodeReader, whitespaceLeaf, isWhitespace,
      SQLToken.MatchKind]
  have hlt : (NewNodeReader ⟨[whitespaceLeaf]⟩).Index <
      (NewNodeReader ⟨[whitespaceLeaf]⟩).Node.GetTokens.length := by
    simp [NewNodeReader]
  ⟨hfalse, hlt,
    (((C13_NextNode_two_effects (NewNodeReader ⟨[whitespaceLeaf]⟩) true).2.1 hfalse).2 hlt).2.2⟩

/-- C14: on a reader whose `Index` is at or past the end of the list (an empty list
included), `NextNode` returns false, `PeekNode` returns `(0, nil)`, `PeekNodeIs`
returns false and `FindNode` returns `(nil, nil)`; none of them fails and the
reader is left as it was. -/
theorem C14_exhausted_reader (nr : NodeReader) (flag : Bool) (nm : NodeMatcher)
    (hend : nr.Node.GetTokens.length ≤ nr.Index) :
    nr.NextNode flag = (false, nr) ∧
    nr.PeekNode flag = ((0, none), nr) ∧
    nr.PeekNodeIs flag nm = Outcome.returns (false, nr) ∧
    ∀ fuel, NodeReader.FindNode (fuel + 1) nr flag nm = Outcome.returns (none, nr) := by
  have hnot : ¬ nr.Index < nr.Node.GetTokens.length := by omega
  have hpeek : nr.PeekNode flag = ((0, none), nr) := by
    simp only [NodeReader.PeekNode]
    rw [NodeReader.PeekNode.loop_unfold]
    simp [NodeReader.CopyReader, hnot]
  refine ⟨?_, hpeek, ?_, ?_⟩
  · rw [NodeReader.NextNode_unfold]
    simp [hnot]
  · unfold NodeReader.PeekNodeIs
    rw [hpeek]
  · intro fuel
    simp only [NodeReader.FindNode]
    rw [NodeReader.FindNode.loop_succ]
    simp [NodeReader.CopyReader, hnot]

/-- C14, at a concrete input: the freshly created reader over the empty list. -/
theorem C14_exhausted_reader_witness :
    (NewNodeReader ⟨[]⟩).Node.GetTokens.length ≤ (NewNodeReader ⟨[]⟩).Index ∧
    ((NewNodeReader ⟨[]⟩).NextNode true = (false, NewNodeReader ⟨[]⟩) ∧
    (NewNodeReader ⟨[]⟩).PeekNode true = ((0, none), NewNodeReader ⟨[]⟩) ∧
    (NewNodeReader ⟨[]⟩).PeekNodeIs true commaMatcher =
      Outcome.returns (false, NewNodeReader ⟨[]⟩) ∧
    ∀ fuel, NodeReader.FindNode (fuel + 1) (NewNodeReader ⟨[]⟩) true commaMatcher =
      Outcome.returns (none, NewNodeReader ⟨[]⟩)) :=
  ⟨Nat.le_refl 0, C14_exhausted_reader (NewNodeReader ⟨[]⟩) true commaMatcher (Nat.le_refl 0)⟩

/-! ## Peeking leaves the reader alone -/

/-- The receiver after `PeekNode` is the receiver before it. -/
theorem NodeReader.PeekNode_frame (nr : NodeReader) (flag : Bool) :
    (nr.PeekNode flag).2 = nr := rfl

/-- The receiver after a returning `PeekNodeIs` is the receiver before it. -/
theorem NodeReader.PeekNodeIs_frame (nr : NodeReader) (flag : Bool) (nm : NodeMatcher)
    (b : Bool) (nr2 : NodeReader)
    (hret : nr.PeekNodeIs flag nm = Outcome.returns (b, nr2)) : nr2 = nr := by
  unfold NodeReader.PeekNodeIs at hret
  simp only [NodeReader.PeekNode] at hret
  generalize NodeReader.PeekNode.loop flag nr.CopyReader = peeked at hret
  obtain ⟨i, node⟩ := peeked
  cases node with
  | none =>
    simp only [Outcome.returns.injEq, Prod.mk.injEq] at hret
    exact hret.2.symm
  | some c =>
    simp only at hret
    generalize nm.IsMatch c = result at hret
    cases result with
    | returns m =>
      cases m <;>
        simp only [Outcome.bind, Bool.false_eq_true, if_false, if_true, Outcome.returns.injEq,
          Prod.mk.injEq] at hret <;>
        exact hret.2.symm
    | panics => cases hret
    | outOfFuel => cases hret

/-- A returning sequence of peeking calls gives the reader back as it was. -/
theorem afterPeeks_frame (calls : List PeekCall) (nr nr2 : NodeReader)
    (hret : afterPeeks calls nr = Outcome.returns nr2) : nr2 = nr := by
  induction calls generalizing nr with
  | nil =>
    simp only [afterPeeks, Outcome.returns.injEq] at hret
    exact hret.symm
  | cons call rest ih =>
    cases call with
    | peekNode flag =>
      simp only [afterPeeks] at hret
      exact ih nr hret
    | peekNodeIs flag nm =>
      simp only [afterPeeks] at hret
      cases hpeek : nr.PeekNodeIs flag nm with
      | returns result =>
        rw [hpeek] at hret
        simp only [Outcome.bind] at hret
        have h1 := ih result.2 hret
        have h2 := NodeReader.PeekNodeIs_frame nr flag nm result.1 result.2 hpeek
        exact h1.trans h2
      | panics =>
        rw [hpeek] at hret
        cases hret
      | outOfFuel =>
        rw [hpeek] at hret
        cases hret

/-- C15: `PeekNode` and `PeekNodeIs` leave the reader's child list, `Index` and
`CurNode` unchanged; hence after any number of peeking calls `NextNode(flag)`
returns the same boolean and produces the same reader as without any peek.  A
sequence of `PeekNode` calls always returns. -/
theorem C15_peek_leaves_reader (nr : NodeReader) (flag : Bool) (nm : NodeMatcher) :
    ((nr.PeekNode flag).2.Node = nr.Node ∧ (nr.PeekNode flag).2.Index = nr.Index ∧
      (nr.PeekNode flag).2.CurNode = nr.CurNode) ∧
    (∀ b nr2, nr.PeekNodeIs flag nm = Outcome.returns (b, nr2) →
      nr2.Node = nr.Node ∧ nr2.Index = nr.Index ∧ nr2.CurNode = nr.CurNode) ∧
    (∀ calls nr2, afterPeeks calls nr = Outcome.returns nr2 →
      ∀ flag2, nr2.NextNode flag2 = nr.NextNode flag2) ∧
    (∀ flags : List Bool, afterPeeks (flags.map PeekCall.peekNode) nr = Outcome.returns nr) := by
  refine ⟨⟨rfl, rfl, rfl⟩, ?_, ?_, ?_⟩
  · intro b nr2 hret
    have := NodeReader.PeekNodeIs_frame nr flag nm b nr2 hret
    subst this
    exact ⟨rfl, rfl, rfl⟩
  · intro calls nr2 hret flag2
    rw [afterPeeks_frame calls nr nr2 hret]
  · intro flags
    induction flags with
    | nil => rfl
    | cons f rest ih =>
      simp only [List.map_cons, afterPeeks]
      exact ih

/-- C15, at a concrete input: a `PeekNodeIs` and a `PeekNode` on the fresh reader
over `[WS, comma]`, followed by `NextNode(true)`. -/
theorem C15_peek_leaves_reader_witness :
    afterPeeks [PeekCall.peekNodeIs true commaMatcher, PeekCall.peekNode false]
        (NewNodeReader ⟨[whitespaceLeaf, commaLeaf]⟩) =
      Outcome.returns (NewNodeReader ⟨[whitespaceLeaf, commaLeaf]⟩) ∧
    ∀ flag2, (NewNodeReader ⟨[whitespaceLeaf, commaLeaf]⟩).NextNode flag2 =
      (NewNodeReader ⟨[whitespaceLeaf, commaLeaf]⟩).NextNode flag2 :=
  have hret : afterPeeks [PeekCall.peekNodeIs true commaMatcher, PeekCall.peekNode false]
        (NewNodeReader ⟨[whitespaceLeaf, commaLeaf]⟩) =
      Outcome.returns (NewNodeReader ⟨[whitespaceLeaf, commaLeaf]⟩) := by
    simp [afterPeeks, NodeReader.PeekNodeIs, NodeReader.PeekNode, NodeReader.PeekNode.loop_unfold,
      NodeReader.CopyReader, NewNodeReader, whitespaceLeaf, commaLeaf, commaMatcher,
      isWhitespace, SQLToken.MatchKind, NodeMatcher.IsMatch, NodeMatcher.IsMatchNodeType,
      NodeMatcher.IsMatchTokens, Outcome.bind]
  ⟨hret, (C15_peek_leaves_reader (NewNodeReader ⟨[whitespaceLeaf, commaLeaf]⟩) true
    commaMatcher).2.2.1 _ _ hret⟩

/-! ## Empty matchers and foreign nodes -/

/-- A matcher without a type predicate, asked about a Leaf that none of its three
sets matches, returns false. -/
theorem NodeMatcher.IsMatch_leaf_no_match (nm : NodeMatcher) (tok : SQLToken)
    (hpred : nm.NodeTypeMatcherFunc = none)
    (hk : ∀ ks, nm.ExpectTokens = some ks → ∀ k ∈ ks, tok.MatchKind k = false)
    (hc : ∀ cs, nm.ExpectSQLType = some cs → ∀ c ∈ cs, tok.MatchSQLKind c = false)
    (ht : ∀ ss, nm.ExpectKeyword = some ss → ∀ t ∈ ss, tok.MatchSQLKeyword t = false) :
    nm.IsMatch (ast.Node.Leaf tok) = Outcome.returns false := by
  have h1 : nm.IsMatchTokens tok = false := by
    cases h : nm.IsMatchTokens tok
    · rfl
    · obtain ⟨ks, hks, k, hmem, hm⟩ := (NodeMatcher.IsMatchTokens_iff nm tok).mp h
      rw [hk ks hks k hmem] at hm
      cases hm
  have h2 : nm.IsMatchSQLType tok = false := by
    cases h : nm.IsMatchSQLType tok
    · rfl
    · obtain ⟨cs, hcs, c, hmem, hm⟩ := (NodeMatcher.IsMatchSQLType_iff nm tok).mp h
      rw [hc cs hcs c hmem] at hm
      cases hm
  have h3 : nm.IsMatchKeyword tok = false := by
    cases h : nm.IsMatchKeyword tok
    · rfl
    · obtain ⟨ss, hss, t, hmem, hm⟩ := (NodeMatcher.IsMatchKeyword_iff nm tok).mp h
      rw [ht ss hss t hmem] at hm
      cases hm
  simp [NodeMatcher.IsMatch, NodeMatcher.IsMatchNodeType, hpred, h1, h2, h3]

/-- C16: an empty pattern matches nothing.  A matcher with no type predicate whose
`ExpectTokens`, `ExpectSQLType` and `ExpectKeyword` are nil or empty returns false
on every Leaf and every Composite; more generally a matcher without type
predicate returns false on a Leaf when none of the entries of its three sets
matches the token, in particular when the sets contain neither the kind of the
token, nor its keyword class, nor a string equal to its text up to letter case. -/
theorem C16_empty_matcher_matches_nothing (nm : NodeMatcher)
    (hpred : nm.NodeTypeMatcherFunc = none) :
    ((nm.ExpectTokens = none ∨ nm.ExpectTokens = some []) →
      (nm.ExpectSQLType = none ∨ nm.ExpectSQLType = some []) →
      (nm.ExpectKeyword = none ∨ nm.ExpectKeyword = some []) →
      (∀ tok, nm.IsMatch (Node.Leaf tok) = Outcome.returns false) ∧
      (∀ toks, nm.IsMatch (Node.Composite toks) = Outcome.returns false)) ∧
    (∀ tok : SQLToken,
      (∀ ks, nm.ExpectTokens = some ks → ∀ k ∈ ks, tok.MatchKind k = false) →
      (∀ cs, nm.ExpectSQLType = some cs → ∀ c ∈ cs, tok.MatchSQLKind c = false) →
      (∀ ss, nm.ExpectKeyword = some ss → ∀ t ∈ ss, tok.MatchSQLKeyword t = false) →
      nm.IsMatch (Node.Leaf tok) = Outcome.returns false) ∧
    (∀ tok : SQLToken,
      (∀ ks, nm.ExpectTokens = some ks → tok.Kind ∉ ks) →
      (∀ cs, nm.ExpectSQLType = some cs → ∀ c, tok.KeywordClass = some c → c ∉ cs) →
      (∀ ss, nm.ExpectKeyword = some ss →
        ∀ t ∈ ss, tok.Text.data.map Char.toLower ≠ t.data.map Char.toLower) →
      nm.IsMatch (Node.Leaf tok) = Outcome.returns false) := by
  refine ⟨?_, ?_, ?_⟩
  · intro h1 h2 h3
    refine ⟨fun tok => ?_, fun toks => ?_⟩
    · apply NodeMatcher.IsMatch_leaf_no_match nm tok hpred
      · intro ks hks k hmem
        rcases h1 with h | h <;> rw [h] at hks <;> cases hks
        cases hmem
      · intro cs hcs c hmem
        rcases h2 with h | h <;> rw [h] at hcs <;> cases hcs
        cases hmem
      · intro ss hss t hmem
        rcases h3 with h | h <;> rw [h] at hss <;> cases hss
        cases hmem
    · simp [NodeMatcher.IsMatch, NodeMatcher.IsMatchNodeType, hpred]
  · intro tok hk hc ht
    exact NodeMatcher.IsMatch_leaf_no_match nm tok hpred hk hc ht
  · intro tok hk hc ht
    apply NodeMatcher.IsMatch_leaf_no_match nm tok hpred
    · intro ks hks k hmem
      have hne : tok.Kind ≠ k := fun h => hk ks hks (h ▸ hmem)
      simp [SQLToken.MatchKind, hne]
    · intro cs hcs c hmem
      have hne : tok.KeywordClass ≠ some c := fun h => hc cs hcs c h hmem
      simp [SQLToken.MatchSQLKind, hne]
    · intro ss hss t hmem
      have hne := ht ss hss t hmem
      simp [SQLToken.MatchSQLKeyword, hne]

/-- C16, at a concrete input: the matcher with nil sets and the matcher with empty
sets, asked about a comma leaf and about a Composite holding a comma leaf. -/
theorem C16_empty_matcher_matches_nothing_witness :
    (⟨none, none, none, none⟩ : NodeMatcher).NodeTypeMatcherFunc = none ∧
    ((∀ tok, NodeMatcher.IsMatch ⟨none, none, none, none⟩ (Node.Leaf tok) =
        Outcome.returns false) ∧
      (∀ toks, NodeMatcher.IsMatch ⟨none, none, none, none⟩ (Node.Composite toks) =
        Outcome.returns false)) ∧
    ((∀ tok, NodeMatcher.IsMatch ⟨none, some [], some [], some []⟩ (Node.Leaf tok) =
        Outcome.returns false) ∧
      (∀ toks, NodeMatcher.IsMatch ⟨none, some [], some [], some []⟩ (Node.Composite toks) =
        Outcome.returns false)) :=
  ⟨rfl,
    (C16_empty_matcher_matches_nothing ⟨none, none, none, none⟩ rfl).1
      (Or.inl rfl) (Or.inl rfl) (Or.inl rfl),
    (C16_empty_matcher_matches_nothing ⟨none, some [], some [], some []⟩ rfl).1
      (Or.inr rfl) (Or.inr rfl) (Or.inr rfl)⟩

/-- C17, as stated, fails: a matcher whose type predicate accepts every node
returns true, without panicking, on a node that is neither a Leaf nor a
Composite. -/
theorem C17_IsMatch_foreign_node_counterexample :
    NodeMatcher.IsMatch ⟨some fun _ => true, none, none, none⟩ (Node.Other "?") =
      Outcome.returns true ∧
    NodeMatcher.IsMatch ⟨some fun _ => true, none, none, none⟩ (Node.Other "?") ≠
      Outcome.panics := by
  have h : NodeMatcher.IsMatch ⟨some fun _ => true, none, none, none⟩ (Node.Other "?") =
      Outcome.returns true := by
    simp [NodeMatcher.IsMatch, NodeMatcher.IsMatchNodeType]
  refine ⟨h, ?_⟩
  rw [h]
  intro hc
  cases hc

/-- C17, amended: on a node that is neither a Leaf nor a Composite, `IsMatch`
returns true when the type predicate is present and accepts the node, and
panics otherwise; it never returns false for such a node.  On a Leaf or a
Composite it returns a boolean without failing. -/
theorem C17_IsMatch_foreign_node (nm : NodeMatcher) (n : Node) :
    (∀ str, n = Node.Other str →
      ((∃ f, nm.NodeTypeMatcherFunc = some f ∧ f n = true) →
        nm.IsMatch n = Outcome.returns true) ∧
      ((¬ ∃ f, nm.NodeTypeMatcherFunc = some f ∧ f n = true) →
        nm.IsMatch n = Outcome.panics) ∧
      nm.IsMatch n ≠ Outcome.returns false) ∧
    ((∀ str, n ≠ Node.Other str) →
      nm.IsMatch n = Outcome.returns true ∨ nm.IsMatch n = Outcome.returns false) := by
  rw [← NodeMatcher.IsMatchNodeType_iff]
  refine ⟨?_, ?_⟩
  · intro str hn
    subst hn
    cases hp : nm.IsMatchNodeType (Node.Other str) <;> simp [NodeMatcher.IsMatch, hp]
  · intro hn
    cases n with
    | Other str => exact absurd rfl (hn str)
    | Composite toks =>
      cases hp : nm.IsMatchNodeType (Node.Composite toks) <;> simp [NodeMatcher.IsMatch, hp]
    | Leaf tok =>
      cases hp : nm.IsMatchNodeType (Node.Leaf tok) <;>
        cases h2 : nm.IsMatchTokens tok <;>
        cases h3 : nm.IsMatchSQLType tok <;>
        cases h4 : nm.IsMatchKeyword tok <;>
        simp [NodeMatcher.IsMatch, hp, h2, h3, h4]

/-- C17 amended, at a concrete input: the comma matcher, which has no type
predicate, panics on a node that is neither a Leaf nor a Composite. -/
theorem C17_IsMatch_foreign_node_witness :
    Node.Other "?" = Node.Other "?" ∧
    (¬ ∃ f, commaMatcher.NodeTypeMatcherFunc = some f ∧ f (Node.Other "?") = true) ∧
    commaMatcher.IsMatch (Node.Other "?") = Outcome.panics :=
  have hno : ¬ ∃ f, commaMatcher.NodeTypeMatcherFunc = some f ∧ f (Node.Other "?") = true := by
    simp [commaMatcher]
  ⟨rfl, hno, ((C17_IsMatch_foreign_node commaMatcher (Node.Other "?")).1 "?" rfl).2.1 hno⟩

/-! ## The index invariant -/

/-- Where the index stands after `NextNode`: not before its old place, within the
list when it was within the list, and strictly further when the call returns
true. -/
theorem NodeReader.NextNode_Index (nr : NodeReader) (flag : Bool)
    (hle : nr.Index ≤ nr.Node.GetTokens.length) :
    nr.Index ≤ (nr.NextNode flag).2.Index ∧
    (nr.NextNode flag).2.Index ≤ nr.Node.GetTokens.length ∧
    ((nr.NextNode flag).1 = true → nr.Index < (nr.NextNode flag).2.Index) := by
  rcases NodeReader.NextNode_cases nr flag with ⟨i, c, hfirst, hres⟩ | ⟨-, hres⟩
  · have hi : i < nr.Node.GetTokens.length := (List.getElem?_eq_some_iff.mp hfirst.2.1).1
    have hge : nr.Index ≤ i := hfirst.1
    rw [hres]
    simp only
    omega
  · rw [hres]
    by_cases hlt : nr.Index < nr.Node.GetTokens.length
    · simp only [hlt, if_true, Bool.false_eq_true, false_implies, and_true]
      omega
    · simp only [hlt, if_false, Bool.false_eq_true, false_implies, and_true]
      omega

/-- C18: the index only increases and stays within the list.  For a reader with
`Index ≤ len(children)`, after `NextNode(flag)` the new `Index` is at least the
old one and at most `len(children)`, and strictly greater than the old one when
`NextNode` returns true; the reader returned by `FindNode`, when there is one,
reads the same list and has `receiver.Index ≤ Index ≤ len(children)`. -/
theorem C18_index_monotone_and_bounded (nr : NodeReader) (flag : Bool)
    (hle : nr.Index ≤ nr.Node.GetTokens.length) :
    (nr.NextNode flag).2.Node = nr.Node ∧
    nr.Index ≤ (nr.NextNode flag).2.Index ∧
    (nr.NextNode flag).2.Index ≤ nr.Node.GetTokens.length ∧
    ((nr.NextNode flag).1 = true → nr.Index < (nr.NextNode flag).2.Index) ∧
    (∀ fuel nm r2 n nr2,
      NodeReader.FindNode fuel nr flag nm = Outcome.returns (some (r2, n), nr2) →
      r2.Node = nr.Node ∧ nr.Index ≤ r2.Index ∧ r2.Index ≤ nr.Node.GetTokens.length) := by
  obtain ⟨h1, h2, h3⟩ := NodeReader.NextNode_Index nr flag hle
  refine ⟨(NodeReader.NextNode_frame nr flag).1, h1, h2, h3, ?_⟩
  intro fuel nm r2 n nr2 hret
  obtain ⟨-, hres⟩ := NodeReader.FindNode.loop_returns flag nm nr fuel nr.CopyReader rfl
    (le_refl _) (some (r2, n)) nr2 hret
  obtain ⟨hNode, hIdx, hget⟩ := hres r2 n rfl
  have hlt : r2.Index < r2.Node.GetTokens.length := (List.getElem?_eq_some_iff.mp hget).1
  rw [hNode] at hlt
  exact ⟨hNode, hIdx, Nat.le_of_lt hlt⟩

/-- C18, at a concrete input: `NextNode(true)` on the fresh reader over
`[WS, comma]`. -/
theorem C18_index_monotone_and_bounded_witness :
    (NewNodeReader ⟨[whitespaceLeaf, commaLeaf]⟩).Index ≤
      (NewNodeReader ⟨[whitespaceLeaf, commaLeaf]⟩).Node.GetTokens.length ∧
    (NewNodeReader ⟨[whitespaceLeaf, commaLeaf]⟩).Index ≤
      ((NewNodeReader ⟨[whitespaceLeaf, commaLeaf]⟩).NextNode true).2.Index ∧
    ((NewNodeReader ⟨[whitespaceLeaf, commaLeaf]⟩).NextNode true).2.Index ≤
      (NewNodeReader ⟨[whitespaceLeaf, commaLeaf]⟩).Node.GetTokens.length :=
  ⟨Nat.zero_le _,
    (C18_index_monotone_and_bounded (NewNodeReader ⟨[whitespaceLeaf, commaLeaf]⟩) true
      (Nat.zero_le _)).2.1,
    (C18_index_monotone_and_bounded (NewNodeReader ⟨[whitespaceLeaf, commaLeaf]⟩) true
      (Nat.zero_le _)).2.2.1⟩

/-! ## Slicing -/

/-- C19, as stated, fails: on a reader over `[x]` whose child slice has capacity 2
(one spare slot, holding nil), `NodesWithRange(0, 2)` violates
`endIndex ≤ len(children)` and still returns a sequence, of length 2, instead of
failing. -/
theorem C19_NodesWithRange_past_length_counterexample :
    ¬ (2 ≤ (NewNodeReader ⟨[identLeaf "x"]⟩).Node.GetTokens.length) ∧
    (NewNodeReader ⟨[identLeaf "x"]⟩).NodesWithRange [none] 0 2 =
      Outcome.returns ([some (identLeaf "x"), none], NewNodeReader ⟨[identLeaf "x"]⟩) ∧
    (NewNodeReader ⟨[identLeaf "x"]⟩).NodesWithRange [none] 0 2 ≠ Outcome.panics := by
  have h : (NewNodeReader ⟨[identLeaf "x"]⟩).NodesWithRange [none] 0 2 =
      Outcome.returns ([some (identLeaf "x"), none], NewNodeReader ⟨[identLeaf "x"]⟩) := by
    simp [NodeReader.NodesWithRange, NewNodeReader]
  refine ⟨by simp [NewNodeReader], h, ?_⟩
  rw [h]
  intro hc
  cases hc

/-- What `NodesWithRange` returns when its indices are in range: slot `i` of the
result is slot `startIndex + i` of the backing array, that is, a child below the
length and a spare slot from the length on. -/
theorem NodeReader.NodesWithRange_slots (nr : NodeReader) (spare : List (Option ast.Node))
    (startIndex endIndex : Nat) (h1 : startIndex ≤ endIndex)
    (h2 : endIndex ≤ nr.Node.GetTokens.length + spare.length) :
    ∃ res, nr.NodesWithRange spare startIndex endIndex = Outcome.returns (res, nr) ∧
      res.length = endIndex - startIndex ∧
      (∀ i, i < endIndex - startIndex → startIndex + i < nr.Node.GetTokens.length →
        res[i]? = (nr.Node.GetTokens[startIndex + i]?).map some) ∧
      (∀ i, i < endIndex - startIndex → nr.Node.GetTokens.length ≤ startIndex + i →
        res[i]? = spare[startIndex + i - nr.Node.GetTokens.length]?) := by
  have hin : startIndex ≤ endIndex ∧
      endIndex ≤ (nr.Node.GetTokens.map some ++ spare).length := by
    simp only [List.length_append, List.length_map]
    omega
  refine ⟨((nr.Node.GetTokens.map some ++ spare).drop startIndex).take
    (endIndex - startIndex), by simp only [NodeReader.NodesWithRange, hin, and_self, if_true],
    ?_, ?_, ?_⟩
  · simp only [List.length_take, List.length_drop, List.length_append, List.length_map]
    omega
  · intro i hi hlt
    rw [List.getElem?_take_of_lt hi, List.getElem?_drop,
      List.getElem?_append_left (by simpa only [List.length_map] using hlt), List.getElem?_map]
  · intro i hi hge
    rw [List.getElem?_take_of_lt hi, List.getElem?_drop,
      List.getElem?_append_right (by simpa only [List.length_map] using hge), List.length_map]

/-- C19, amended: for `startIndex ≤ endIndex ≤ len(children)`, `NodesWithRange`
returns exactly the children at the indices `startIndex`, ..., `endIndex - 1` in
order and leaves the reader unchanged; it fails with a bounds error exactly when
`startIndex > endIndex` or `endIndex` exceeds the capacity of the child slice;
for `startIndex ≤ endIndex ≤ capacity`, also with `endIndex` past
`len(children)`, it returns the slots `startIndex`, ..., `endIndex - 1` of the
backing array in order: the children below `len(children)` and, from there on,
the spare slots of the backing array, and it leaves the reader unchanged. -/
theorem C19_NodesWithRange_bounds (nr : NodeReader) (spare : List (Option Node))
    (startIndex endIndex : Nat) :
    (startIndex ≤ endIndex → endIndex ≤ nr.Node.GetTokens.length →
      ∃ res : List Node,
        nr.NodesWithRange spare startIndex endIndex = Outcome.returns (res.map some, nr) ∧
        res.length = endIndex - startIndex ∧
        ∀ i, i < endIndex - startIndex → res[i]? = nr.Node.GetTokens[startIndex + i]?) ∧
    (nr.NodesWithRange spare startIndex endIndex = Outcome.panics ↔
      (endIndex < startIndex ∨ nr.Node.GetTokens.length + spare.length < endIndex)) ∧
    (startIndex ≤ endIndex → endIndex ≤ nr.Node.GetTokens.length + spare.length →
      ∃ res, nr.NodesWithRange spare startIndex endIndex = Outcome.returns (res, nr) ∧
        res.length = endIndex - startIndex ∧
        (∀ i, i < endIndex - startIndex → startIndex + i < nr.Node.GetTokens.length →
          res[i]? = (nr.Node.GetTokens[startIndex + i]?).map some) ∧
        (∀ i, i < endIndex - startIndex → nr.Node.GetTokens.length ≤ startIndex + i →
          res[i]? = spare[startIndex + i - nr.Node.GetTokens.length]?)) := by
  refine ⟨?_, ?_, NodeReader.NodesWithRange_slots nr spare startIndex endIndex⟩
  · intro h1 h2
    refine ⟨(nr.Node.GetTokens.drop startIndex).take (endIndex - startIndex), ?_, ?_, ?_⟩
    · have hin : startIndex ≤ endIndex ∧
          endIndex ≤ (nr.Node.GetTokens.map some ++ spare).length := by
        simp only [List.length_append, List.length_map]
        omega
      simp only [NodeReader.NodesWithRange, hin, and_self, if_true, Outcome.returns.injEq,
        Prod.mk.injEq, and_true]
      rw [List.drop_append_of_le_length (by simp only [List.length_map]; omega),
        List.take_append_of_le_length (by simp only [List.length_drop, List.length_map]; omega),
        List.map_take, List.map_drop]
    · simp only [List.length_take, List.length_drop]
      omega
    · intro i hi
      rw [List.getElem?_take_of_lt hi, List.getElem?_drop]
  · by_cases hin : startIndex ≤ endIndex ∧
        endIndex ≤ (nr.Node.GetTokens.map some ++ spare).length
    · simp only [NodeReader.NodesWithRange, hin, and_self, if_true]
      simp only [List.length_append, List.length_map] at hin
      constructor
      · intro hc
        cases hc
      · intro hc
        omega
    · simp only [NodeReader.NodesWithRange, hin, if_false, true_iff]
      simp only [List.length_append, List.length_map] at hin
      omega

/-- C19 amended, at a concrete input: `NodesWithRange(1, 4)` on `[x, comma]` with two
spare slots, the first holding `y` and the second nil.  The range ends past the
length; slot 0 of the result is the child at index 1, slots 1 and 2 are the
spare slots. -/
theorem C19_NodesWithRange_bounds_witness :
    (1 ≤ 4 ∧
      4 ≤ (NewNodeReader ⟨[identLeaf "x", commaLeaf]⟩).Node.GetTokens.length +
        [some (identLeaf "y"), none].length) ∧
    ¬ (4 ≤ (NewNodeReader ⟨[identLeaf "x", commaLeaf]⟩).Node.GetTokens.length) ∧
    (NewNodeReader ⟨[identLeaf "x", commaLeaf]⟩).NodesWithRange
        [some (identLeaf "y"), none] 1 4 =
      Outcome.returns ([some commaLeaf, some (identLeaf "y"), none],
        NewNodeReader ⟨[identLeaf "x", commaLeaf]⟩) ∧
    ∃ res, (NewNodeReader ⟨[identLeaf "x", commaLeaf]⟩).NodesWithRange
          [some (identLeaf "y"), none] 1 4 =
        Outcome.returns (res, NewNodeReader ⟨[identLeaf "x", commaLeaf]⟩) ∧
      res.length = 4 - 1 ∧
      (∀ i, i < 4 - 1 →
        1 + i < (NewNodeReader ⟨[identLeaf "x", commaLeaf]⟩).Node.GetTokens.length →
        res[i]? =
          ((NewNodeReader ⟨[identLeaf "x", commaLeaf]⟩).Node.GetTokens[1 + i]?).map some) ∧
      (∀ i, i < 4 - 1 →
        (NewNodeReader ⟨[identLeaf "x", commaLeaf]⟩).Node.GetTokens.length ≤ 1 + i →
        res[i]? = [some (identLeaf "y"), none][
          1 + i - (NewNodeReader ⟨[identLeaf "x", commaLeaf]⟩).Node.GetTokens.length]?) :=
  ⟨⟨by decide, by decide⟩, by decide, by simp [NodeReader.NodesWithRange, NewNodeReader],
    (C19_NodesWithRange_bounds (NewNodeReader ⟨[identLeaf "x", commaLeaf]⟩)
      [some (identLeaf "y"), none] 1 4).2.2 (by decide) (by decide)⟩

/-! ## Peek agrees with step -/

/-- `PeekNode` and `NextNode`, run from the same reader, end the same way: both at
the first qualifying child, or both with nothing found. -/
theorem NodeReader.PeekNode_NextNode (nr : NodeReader) (flag : Bool) :
    (∃ i c, (nr.PeekNode flag).1 = (i, some c) ∧
        nr.NextNode flag = (true, { Node := nr.Node, CurNode := some c, Index := i + 1 })) ∨
    ((nr.PeekNode flag).1 = (0, none) ∧ (nr.NextNode flag).1 = false) := by
  rcases NodeReader.PeekNode_cases nr flag with ⟨i, c, hfirst, hpeek⟩ | ⟨hnone, hpeek⟩
  · rcases NodeReader.NextNode_cases nr flag with ⟨j, d, hfirst2, hstep⟩ | ⟨hnone2, -⟩
    · obtain ⟨hij, hcd⟩ := IsFirstQualifying.unique hfirst hfirst2
      subst hij hcd
      exact Or.inl ⟨i, c, by rw [hpeek], hstep⟩
    · exact absurd hfirst.someQualifies hnone2
  · rcases NodeReader.NextNode_cases nr flag with ⟨j, d, hfirst2, -⟩ | ⟨-, hstep⟩
    · exact absurd hfirst2.someQualifies hnone
    · exact Or.inr ⟨by rw [hpeek], by rw [hstep]⟩

/-- Peeking from a reader is peeking from its copy. -/
theorem NodeReader.PeekNode_CopyReader (nr : NodeReader) (flag : Bool) :
    (nr.CopyReader.PeekNode flag).1 = (nr.PeekNode flag).1 := rfl

/-- C20: peek agrees with step.  `PeekNode(flag)` returns `(i, n)` with a node `n` if
and only if `NextNode(flag)` on the same state returns true, and then `NextNode`
leaves `CurNode = n` and `Index = i + 1`; `PeekNode` returns `(0, nil)` if and only
if `NextNode(flag)` returns false.  Consequently `PeekNodeIs(flag, nm)` is
`CurNodeIs(nm)` after a successful `NextNode(flag)` on a copy of the reader, and
false when that step fails. -/
theorem C20_peek_agrees_with_step (nr : NodeReader) (flag : Bool) :
    ((∃ i n, (nr.PeekNode flag).1 = (i, some n)) ↔ (nr.NextNode flag).1 = true) ∧
    (∀ i n, (nr.PeekNode flag).1 = (i, some n) →
      (nr.NextNode flag).2.CurNode = some n ∧ (nr.NextNode flag).2.Index = i + 1) ∧
    ((nr.PeekNode flag).1 = (0, none) ↔ (nr.NextNode flag).1 = false) ∧
    (∀ nm, (nr.CopyReader.NextNode flag).1 = true →
      nr.PeekNodeIs flag nm =
        ((nr.CopyReader.NextNode flag).2.CurNodeIs nm).bind fun b => Outcome.returns (b, nr)) ∧
    (∀ nm, (nr.CopyReader.NextNode flag).1 = false →
      nr.PeekNodeIs flag nm = Outcome.returns (false, nr)) := by
  refine ⟨?_, ?_, ?_, ?_, ?_⟩
  · rcases NodeReader.PeekNode_NextNode nr flag with ⟨i, c, hpeek, hstep⟩ | ⟨hpeek, hstep⟩
    · rw [hstep]
      exact ⟨fun _ => rfl, fun _ => ⟨i, c, hpeek⟩⟩
    · rw [hstep, hpeek]
      constructor
      · rintro ⟨i, n, h⟩
        simp at h
      · intro h
        cases h
  · intro i n hin
    rcases NodeReader.PeekNode_NextNode nr flag with ⟨i2, c, hpeek, hstep⟩ | ⟨hpeek, -⟩
    · rw [hpeek] at hin
      simp only [Prod.mk.injEq, Option.some.injEq] at hin
      obtain ⟨h1, h2⟩ := hin
      subst h1 h2
      rw [hstep]
      exact ⟨rfl, rfl⟩
    · rw [hpeek] at hin
      simp at hin
  · rcases NodeReader.PeekNode_NextNode nr flag with ⟨i, c, hpeek, hstep⟩ | ⟨hpeek, hstep⟩
    · rw [hstep, hpeek]
      constructor
      · intro h
        simp at h
      · intro h
        cases h
    · rw [hstep, hpeek]
      exact ⟨fun _ => rfl, fun _ => rfl⟩
  · intro nm htrue
    rcases NodeReader.PeekNode_NextNode nr.CopyReader flag with
      ⟨i, c, hpeek, hstep⟩ | ⟨-, hstep⟩
    · rw [NodeReader.PeekNode_CopyReader] at hpeek
      have hpair : nr.PeekNode flag = ((i, some c), nr) := Prod.ext hpeek rfl
      rw [hstep]
      simp only
      rw [NodeReader.CurNodeIs_some _ nm c rfl]
      unfold NodeReader.PeekNodeIs
      rw [hpair]
      simp only
      generalize nm.IsMatch c = result
      cases result with
      | returns b => cases b <;> rfl
      | panics => rfl
      | outOfFuel => rfl
    · rw [hstep] at htrue
      cases htrue
  · intro nm hfalse
    rcases NodeReader.PeekNode_NextNode nr.CopyReader flag with
      ⟨i, c, -, hstep⟩ | ⟨hpeek, -⟩
    · rw [hstep] at hfalse
      cases hfalse
    · rw [NodeReader.PeekNode_CopyReader] at hpeek
      have hpair : nr.PeekNode flag = ((0, none), nr) := Prod.ext hpeek rfl
      unfold NodeReader.PeekNodeIs
      rw [hpair]

/-- C20, at a concrete input: peeking and stepping over `[WS, comma]` with the flag
on; the peek returns the comma at index 1, the step leaves the comma as `CurNode`
and `Index` 2. -/
theorem C20_peek_agrees_with_step_witness :
    ((NewNodeReader ⟨[whitespaceLeaf, commaLeaf]⟩).PeekNode true).1 = (1, some commaLeaf) ∧
    (((NewNodeReader ⟨[whitespaceLeaf, commaLeaf]⟩).NextNode true).2.CurNode = some commaLeaf ∧
      ((NewNodeReader ⟨[whitespaceLeaf, commaLeaf]⟩).NextNode true).2.Index = 1 + 1) :=
  have hpeek : ((NewNodeReader ⟨[whitespaceLeaf, commaLeaf]⟩).PeekNode true).1 =
      (1, some commaLeaf) := by
    simp [NodeReader.PeekNode, NodeReader.PeekNode.loop_unfold, NodeReader.CopyReader,
      NewNodeReader, whitespaceLeaf, commaLeaf, isWhitespace, SQLToken.MatchKind]
  ⟨hpeek, (C20_peek_agrees_with_step (NewNodeReader ⟨[whitespaceLeaf, commaLeaf]⟩) true).2.1
    1 commaLeaf hpeek⟩

end astutil
